import Mathlib

/-!
Verification of `src/superset-frontend/src/SqlLab/reducers/getInitialState.ts`.

The module reconciles server-persisted SQL Lab state with a legacy
browser-`localStorage` snapshot into one initial state object.  We embed the
JavaScript semantics the file relies on:

* JS runtime values (`JValue`): `undefined`, `null`, booleans, numbers,
  strings, arrays and plain objects.  Objects are ordered key/value lists;
  JSON numbers are modelled as integers (`Int`) since the module performs no
  arithmetic on them (fractional JSON literals are truncated by the model's
  parser and never decide any property below).
* JS truthiness, strict equality (`===`, reference equality on two distinct
  object/array values is `false`; the module never compares aliased object
  references), property reads, `ToPropertyKey` conversion, spread syntax, and
  the own-property enumeration order of `Object.values` / spread (array-index
  keys in ascending numeric order first, then remaining string keys in
  insertion order).
* `JSON.parse`, as an executable parser returning `Except Unit JValue`
  (`.error` models the thrown `SyntaxError`).
* `localStorage` as an `Option String` input plus a `removedRedux : Bool`
  effect flag in the result (recording `localStorage.removeItem('redux')`);
  `Date.now()` as two `Int` parameters (the source calls it twice).

Thrown `TypeError`s (property read on `null`/`undefined`, `.forEach`/`.reduce`
on a non-array, `Object.values(null)`, spreading a non-iterable into an array)
are modelled with `Except JsErr`.
-/

inductive JValue : Type where
  | undef : JValue
  | null : JValue
  | bool : Bool → JValue
  | num : Int → JValue
  | str : String → JValue
  | arr : List JValue → JValue
  | obj : List (String × JValue) → JValue

/-- A JavaScript object body: ordered list of fields. -/
abbrev JObj := List (String × JValue)

inductive JsErr : Type where
  | syntaxError : JsErr
  | typeError : JsErr
deriving DecidableEq, Repr

/-- Is the value `null` or `undefined`? (property reads on these throw). -/
def nullish : JValue → Bool
  | .undef => true
  | .null => true
  | _ => false

/-- JS truthiness: `undefined`, `null`, `false`, `0`, `""` are falsy. -/
def truthy : JValue → Bool
  | .undef => false
  | .null => false
  | .bool b => b
  | .num n => n != 0
  | .str s => s ≠ ""
  | .arr _ => true
  | .obj _ => true

/-- JS `a || b`. -/
def jsOr (a b : JValue) : JValue := if truthy a then a else b

/-- JS strict equality `===` restricted to the values of this model.  Two
object or array values are never strictly equal here: in the source every
object compared with `===` (ids read out of parsed JSON and of object
literals) is a fresh, unaliased reference, so reference equality is `false`.
For primitives `===` is structural. -/
def jsStrictEq : JValue → JValue → Bool
  | .undef, .undef => true
  | .null, .null => true
  | .bool a, .bool b => a == b
  | .num a, .num b => a == b
  | .str a, .str b => a == b
  | _, _ => false

/-- First-match association lookup (JS objects have unique keys; every object
this model builds is constructed through `objSet`, which keeps keys unique). -/
def objGet : JObj → String → Option JValue
  | [], _ => none
  | (k', v) :: rest, k => if k' = k then some v else objGet rest k

/-- JS property write `o[k] = v` / object-literal field: overwrite in place
if the key exists (keeping its position), else append. -/
def objSet : JObj → String → JValue → JObj
  | [], k, v => [(k, v)]
  | (k', v') :: rest, k, v =>
      if k' = k then (k', v) :: rest else (k', v') :: objSet rest k v

/-- Is `k` a canonical array-index property key (`"0"`, `"1"`, …, below
`2^32 - 1`)?  Such keys are enumerated first, in ascending numeric order. -/
def isArrayIndex (k : String) : Option Nat :=
  match k.data with
  | [] => none
  | c :: rest =>
      if c = '0' ∧ rest = [] then some 0
      else if c.isDigit ∧ c ≠ '0' ∧ rest.all Char.isDigit then
        let n := (c :: rest).foldl (fun a d => a * 10 + (d.toNat - '0'.toNat)) 0
        if n < 4294967295 then some n else none
      else none

/-- Drop all but the first occurrence of each key (JS objects cannot carry
duplicate keys; this normalises the unreachable junk representations). -/
def dedupKeysAux (seen : List String) : JObj → JObj
  | [] => []
  | (k, v) :: rest =>
      if k ∈ seen then dedupKeysAux seen rest
      else (k, v) :: dedupKeysAux (k :: seen) rest

def dedupKeys (fs : JObj) : JObj := dedupKeysAux [] fs

/-- Own-property enumeration order of a JS object (`OrdinaryOwnPropertyKeys`):
array-index keys in ascending numeric order, then the remaining string keys
in insertion order. -/
def jsOwnEntries (fs : JObj) : JObj :=
  let u := dedupKeys fs
  let idx := u.filter (fun e => (isArrayIndex e.1).isSome)
  let rest := u.filter (fun e => (isArrayIndex e.1).isNone)
  (List.insertionSort
    (fun a b => (isArrayIndex a.1).getD 0 ≤ (isArrayIndex b.1).getD 0) idx)
    ++ rest

/-- The own enumerable string-keyed entries a value contributes to object
spread / `Object.values`: objects contribute their fields (enumeration
order), arrays and strings contribute their indexed elements, everything
else contributes nothing. -/
def ownEntriesList : JValue → JObj
  | .obj fs => jsOwnEntries fs
  | .arr l => l.enum.map (fun p => (toString p.1, p.2))
  | .str s => s.data.enum.map (fun p => (toString p.1, .str (String.singleton p.2)))
  | _ => []

/-- JS property read `v[k]` on a non-nullish base (total; readers on nullish
bases go through `jsGet` below, which throws). -/
def pGet : JValue → String → JValue
  | .str s, k =>
      if k = "length" then .num s.length
      else
        match isArrayIndex k with
        | some i =>
            match s.data.get? i with
            | some c => .str (String.singleton c)
            | none => .undef
        | none => .undef
  | .arr l, k =>
      if k = "length" then .num l.length
      else
        match isArrayIndex k with
        | some i => l.getD i .undef
        | none => .undef
  | .obj fs, k => (objGet fs k).getD .undef
  | _, _ => (.undef)

/-- JS property read that throws `TypeError` on `null`/`undefined`. -/
def jsGet (v : JValue) (k : String) : Except JsErr JValue :=
  if nullish v then .error .typeError else .ok (pGet v k)

/-- JS optional chaining `v?.k`. -/
def optGet (v : JValue) (k : String) : JValue :=
  if nullish v then .undef else pGet v k

mutual

/-- JS `ToPropertyKey` / string coercion for computed keys `[expr]`. -/
def toPropKey : JValue → String
  | .undef => "undefined"
  | .null => "null"
  | .bool b => if b then "true" else "false"
  | .num n => toString n
  | .str s => s
  | .arr l => toPropKeyJoin l
  | .obj _ => "[object Object]"

/-- `Array.prototype.toString`: elements joined by commas, `null` and
`undefined` elements rendered empty. -/
def toPropKeyElem : JValue → String
  | .undef => ""
  | .null => ""
  | .bool b => if b then "true" else "false"
  | .num n => toString n
  | .str s => s
  | .arr l => toPropKeyJoin l
  | .obj _ => "[object Object]"

def toPropKeyJoin : List JValue → String
  | [] => ""
  | [x] => toPropKeyElem x
  | x :: y :: xs => toPropKeyElem x ++ "," ++ toPropKeyJoin (y :: xs)
end

/-- Object spread `(...v)` inside an object literal: fold the contributed
entries into the accumulator with JS property-write semantics. -/
def spreadInto (acc : JObj) (v : JValue) : JObj :=
  (ownEntriesList v).foldl (fun m e => objSet m e.1 e.2) acc

/-- `Object.values` (throws on `null`/`undefined`). -/
def jsValuesOf : JValue → Except JsErr (List JValue)
  | .null => .error .typeError
  | .undef => .error .typeError
  | .obj fs => .ok ((jsOwnEntries fs).map (fun e => e.2))
  | .arr l => .ok l
  | .str s => .ok (s.data.map (fun c => .str (String.singleton c)))
  | _ => .ok []

/-- Values of a JS object body in enumeration order. -/
def jsValues (fs : JObj) : List JValue := (jsOwnEntries fs).map (fun e => e.2)

/-- Calling `.forEach` / `.reduce` requires an actual array. -/
def asArr : JValue → Except JsErr (List JValue)
  | .arr l => .ok l
  | _ => .error .typeError

/-- Array spread `push(...v)` requires an iterable: arrays iterate their
elements, strings their characters; everything else throws. -/
def asIterable : JValue → Except JsErr (List JValue)
  | .arr l => .ok l
  | .str s => .ok (s.data.map (fun c => .str (String.singleton c)))
  | _ => .error .typeError

/-! ## JSON.parse

An executable model of `JSON.parse`: `.error` models the thrown
`SyntaxError`.  Numbers are modelled as integers; a fractional or exponent
part is consumed syntactically and the value truncated toward zero (the
source performs no arithmetic on parsed numbers, so this never decides a
property).  String escapes are supported; a `\uXXXX` escape outside the
valid code-point range falls back to the NUL character. -/

def quoteChar : Char := Char.ofNat 34
def backslashChar : Char := Char.ofNat 92
def lbraceChar : Char := Char.ofNat 123
def rbraceChar : Char := Char.ofNat 125

def isJsonWs (c : Char) : Bool :=
  c = ' ' || c = '\t' || c = '\n' || c = '\r'

def skipWs : List Char → List Char
  | [] => []
  | c :: rest => if isJsonWs c then skipWs rest else c :: rest

def hexDigitVal (c : Char) : Option Nat :=
  if '0' ≤ c ∧ c ≤ '9' then some (c.toNat - '0'.toNat)
  else if 'a' ≤ c ∧ c ≤ 'f' then some (c.toNat - 'a'.toNat + 10)
  else if 'A' ≤ c ∧ c ≤ 'F' then some (c.toNat - 'A'.toNat + 10)
  else none

def pStringBody : Nat → List Char → List Char → Except Unit (String × List Char)
  | 0, _, _ => .error ()
  | _ + 1, _, [] => .error ()
  | fuel + 1, acc, c :: rest =>
    if c = quoteChar then .ok (String.mk acc.reverse, rest)
    else if c = backslashChar then
      match rest with
      | [] => .error ()
      | e :: rest' =>
        if e = quoteChar then pStringBody fuel (quoteChar :: acc) rest'
        else if e = backslashChar then pStringBody fuel (backslashChar :: acc) rest'
        else if e = '/' then pStringBody fuel ('/' :: acc) rest'
        else if e = 'b' then pStringBody fuel (Char.ofNat 8 :: acc) rest'
        else if e = 'f' then pStringBody fuel (Char.ofNat 12 :: acc) rest'
        else if e = 'n' then pStringBody fuel ('\n' :: acc) rest'
        else if e = 'r' then pStringBody fuel ('\r' :: acc) rest'
        else if e = 't' then pStringBody fuel ('\t' :: acc) rest'
        else if e = 'u' then
          match rest' with
          | h1 :: h2 :: h3 :: h4 :: rest'' =>
            match hexDigitVal h1, hexDigitVal h2, hexDigitVal h3, hexDigitVal h4 with
            | some a, some b, some c', some d =>
                pStringBody fuel
                  (Char.ofNat (a * 4096 + b * 256 + c' * 16 + d) :: acc) rest''
            | _, _, _, _ => .error ()
          | _ => .error ()
        else .error ()
    else pStringBody fuel (c :: acc) rest

def digitsVal (acc : Nat) : List Char → Nat × Nat × List Char
  | [] => (acc, 0, [])
  | c :: rest =>
    if c.isDigit then
      let (v, n, r) := digitsVal (acc * 10 + (c.toNat - '0'.toNat)) rest
      (v, n + 1, r)
    else (acc, 0, c :: rest)

/-- Parse a JSON number starting at the first character.  Returns the
truncated integer value. -/
def pNumber (cs : List Char) : Except Unit (JValue × List Char) :=
  let (neg, cs1) :=
    match cs with
    | '-' :: rest => (true, rest)
    | _ => (false, cs)
  match cs1 with
  | c :: _ =>
    if c.isDigit then
      let (ip, _, cs2) := digitsVal 0 cs1
      let (fp, flen, cs3) :=
        match cs2 with
        | '.' :: d :: rest =>
          if d.isDigit then
            let (v, n, r) := digitsVal 0 (d :: rest)
            (v, n, r)
          else (0, 0, '.' :: d :: rest)
        | other => (0, 0, other)
      match cs3 with
      | '.' :: _ => .error ()
      | cs3' =>
        let (expOk, esign, ev, cs4) :=
          match cs3' with
          | 'e' :: rest => pExpPart rest
          | 'E' :: rest => pExpPart rest
          | other => (true, false, 0, other)
        if expOk then
          let mant : Int := Int.ofNat (ip * 10 ^ flen + fp)
          let e : Int := (if esign then -(Int.ofNat ev) else Int.ofNat ev) - Int.ofNat flen
          let mag : Int :=
            if 0 ≤ e then mant * 10 ^ e.toNat
            else mant / 10 ^ (-e).toNat
          .ok (.num (if neg then -mag else mag), cs4)
        else .error ()
    else .error ()
  | [] => .error ()
where
  pExpPart (cs : List Char) : Bool × Bool × Nat × List Char :=
    let (sgn, cs') :=
      match cs with
      | '+' :: rest => (false, rest)
      | '-' :: rest => (true, rest)
      | other => (false, other)
    match cs' with
    | c :: _ =>
      if c.isDigit then
        let (v, _, r) := digitsVal 0 cs'
        (true, sgn, v, r)
      else (false, false, 0, cs)
    | [] => (false, false, 0, cs)

def expectLit (lit : List Char) (cs : List Char) : Option (List Char) :=
  match lit, cs with
  | [], rest => some rest
  | l :: ls, c :: rest => if c = l then expectLit ls rest else none
  | _ :: _, [] => none

mutual

def pVal : Nat → List Char → Except Unit (JValue × List Char)
  | 0, _ => .error ()
  | fuel + 1, cs =>
    match skipWs cs with
    | [] => .error ()
    | c :: rest =>
      if c = 'n' then
        match expectLit ['u', 'l', 'l'] rest with
        | some r => .ok (.null, r)
        | none => .error ()
      else if c = 't' then
        match expectLit ['r', 'u', 'e'] rest with
        | some r => .ok (.bool true, r)
        | none => .error ()
      else if c = 'f' then
        match expectLit ['a', 'l', 's', 'e'] rest with
        | some r => .ok (.bool false, r)
        | none => .error ()
      else if c = quoteChar then
        match pStringBody (fuel + 1) [] rest with
        | .ok (s, r) => .ok (.str s, r)
        | .error _ => .error ()
      else if c = '[' then
        match skipWs rest with
        | ']' :: r => .ok (.arr [], r)
        | other => pArrElems fuel [] other
      else if c = lbraceChar then
        match skipWs rest with
        | r :: r' =>
          if r = rbraceChar then .ok (.obj [], r')
          else pObjMembers fuel [] (r :: r')
        | [] => .error ()
      else if c = '-' ∨ c.isDigit then pNumber (c :: rest)
      else .error ()

def pArrElems : Nat → List JValue → List Char → Except Unit (JValue × List Char)
  | 0, _, _ => .error ()
  | fuel + 1, acc, cs => do
    let (v, r) ← pVal fuel cs
    match skipWs r with
    | ',' :: r' => pArrElems fuel (v :: acc) r'
    | ']' :: r' => .ok (.arr (v :: acc).reverse, r')
    | _ => .error ()

def pObjMembers : Nat → JObj → List Char → Except Unit (JValue × List Char)
  | 0, _, _ => .error ()
  | fuel + 1, acc, cs =>
    match skipWs cs with
    | c :: rest =>
      if c = quoteChar then
        match pStringBody fuel [] rest with
        | .ok (k, r) =>
          (match skipWs r with
          | ':' :: r' => do
            let (v, r'') ← pVal fuel r'
            let acc' := objSet acc k v
            match skipWs r'' with
            | ',' :: r3 => pObjMembers fuel acc' r3
            | c4 :: r3 =>
              if c4 = rbraceChar then .ok (.obj acc', r3) else .error ()
            | [] => .error ()
          | _ => .error ())
        | .error _ => .error ()
      else .error ()
    | [] => .error ()

end

/-- `JSON.parse`, returning `.error ()` where JS throws a `SyntaxError`. -/
def jsonParse (s : String) : Except Unit JValue :=
  match pVal (s.length + 2) s.data with
  | .error _ => .error ()
  | .ok (v, rest) => if skipWs rest = [] then .ok v else .error ()

/-! ## The source module

Embedding of `getInitialState.ts`.  Server-side inputs follow the TypeScript
types (`BootstrapData & Partial<InitialState>`): fields the source reads
through typed destructuring become structure fields; values the source only
passes through or feeds to generic JS operations stay `JValue`. -/

/-- `tab_state_ids` entries: `{id, label}` pairs. -/
structure TabStateId where
  id : Int
  label : String

/-- `active_tab.table_schemas` entries, with exactly the fields the source
reads.  `description` is `object | null` in the upstream type: `none`
models `null`. -/
structure TableSchema where
  id : Int
  database_id : JValue
  tab_state_id : Int
  schema : JValue
  table : JValue
  expanded : JValue
  description : Option JObj

structure LatestQuery where
  id : JValue

structure SavedQuery where
  id : JValue

structure ActiveTab where
  id : Int
  label : String
  sql : JValue
  latest_query : Option LatestQuery
  saved_query : Option SavedQuery
  autorun : JValue
  template_params : JValue
  database_id : JValue
  schema : JValue
  query_limit : JValue
  hide_left_bar : JValue
  table_schemas : List TableSchema

structure Conf where
  SQLLAB_DEFAULT_DBID : JValue
  DEFAULT_SQLLAB_LIMIT : JValue

structure Common where
  conf : Conf
  flash_messages : JValue

structure BootstrapInput where
  common : Common
  active_tab : Option ActiveTab
  tab_state_ids : List TabStateId
  databases : JValue
  queries_ : JValue
  user : JValue

/-- Modelled from the spec: the i18n collaborator `t` from
`@superset-ui/core` is out of scope ("rendering … external collaborators");
modelled as the identity on the message key. -/
def t (s : String) : String := s

/-- Modelled from the spec: `getToastsFromPyFlashMessages` is an "external
collaborator that converts raw flash messages into displayable toast
records"; modelled as passing the raw list through. -/
def getToastsFromPyFlashMessages (msgs : JValue) : JValue := msgs

/-- `dedupeTabHistory` (lines 30–36): `reduce` collapsing immediately
adjacent duplicates.  `result.slice(-1)[0]` is the last element, or
`undefined` for the empty accumulator. -/
def jsLastElem (l : List JValue) : JValue := l.getLast?.getD (.undef)

/-- The `reduce` callback of `dedupeTabHistory`. -/
def dedupeStep (result : List JValue) (tabId : JValue) : List JValue :=
  if jsStrictEq (jsLastElem result) tabId then result else result ++ [tabId]

def dedupeTabHistory (tabHistory : List JValue) : List JValue :=
  tabHistory.foldl dedupeStep []

/-- The `defaultQueryEditor` object literal (lines 55–65). -/
def defaultQueryEditor (conf : Conf) : JObj :=
  [("loaded", .bool true),
   ("name", .str (t "Untitled query")),
   ("sql", .str "SELECT *\nFROM\nWHERE"),
   ("latestQueryId", .null),
   ("autorun", .bool false),
   ("dbId", conf.SQLLAB_DEFAULT_DBID),
   ("queryLimit", conf.DEFAULT_SQLLAB_LIMIT),
   ("hideLeftBar", .bool false),
   ("remoteId", .null)]

/-- The fully-populated editor built for the active tab (lines 75–91). -/
def activeTabEditor (activeTab : ActiveTab) (id : Int) : JObj :=
  [("id", .str (toString id)),
   ("loaded", .bool true),
   ("name", .str activeTab.label),
   ("sql", jsOr activeTab.sql (.str "")),
   ("selectedText", .undef),
   ("latestQueryId",
     match activeTab.latest_query with
     | some q => q.id
     | none => .null),
   ("remoteId",
     jsOr (match activeTab.saved_query with
           | some q => q.id
           | none => .undef) .null),
   ("autorun", .bool (truthy activeTab.autorun)),
   ("templateParams", jsOr activeTab.template_params .undef),
   ("dbId", activeTab.database_id),
   ("schema", activeTab.schema),
   ("queryLimit", activeTab.query_limit),
   ("hideLeftBar", activeTab.hide_left_bar)]

/-- The placeholder editor `{...defaultQueryEditor, id, loaded: false,
name: label}` (lines 94–99). -/
def placeholderEditor (conf : Conf) (id : Int) (label : String) : JObj :=
  objSet
    (objSet
      (objSet (spreadInto [] (.obj (defaultQueryEditor conf))) "id"
        (.str (toString id)))
      "loaded" (.bool false))
    "name" (.str label)

/-- Stage 1, editor materialisation (lines 72–105).  The source accumulates
with `queryEditors = {...queryEditors, [queryEditor.id]: queryEditor}`;
spreading the accumulator into a fresh literal and writing one key is
observationally equal to `objSet` (lookups are position-independent and the
final enumeration re-sorts array-index keys anyway), so the accumulation is
modelled as `objSet`. -/
def buildServerEditors (common : Common) (activeTab : Option ActiveTab)
    (tabStateIds : List TabStateId) : JObj :=
  tabStateIds.foldl
    (fun acc ts =>
      let queryEditor : JObj :=
        match activeTab with
        | some at' =>
          if at'.id = ts.id then activeTabEditor at' ts.id
          else placeholderEditor common.conf ts.id ts.label
        | none => placeholderEditor common.conf ts.id ts.label
      objSet acc (toPropKey (pGet (.obj queryEditor) "id")) (.obj queryEditor))
    []

/-- The destructuring `const {dataPreviewQueryId, ...persistData} =
tableSchema.description`: rest objects enumerate the remaining own keys in
own-property order. -/
def restObj (d : JObj) (k : String) : JObj :=
  (jsOwnEntries d).filter (fun e => !(decide (e.1 = k)))

/-- The table object literal of stage 2 (lines 115–125). -/
def tableObjOf (ts : TableSchema) (d : JObj) : JObj :=
  [("dbId", ts.database_id),
   ("queryEditorId", .str (toString ts.tab_state_id)),
   ("schema", ts.schema),
   ("name", ts.table),
   ("expanded", ts.expanded),
   ("id", .num ts.id),
   ("dataPreviewQueryId", (objGet d "dataPreviewQueryId").getD .undef),
   ("persistData", .obj (restObj d "dataPreviewQueryId")),
   ("initialized", .bool true)]

/-- The `forEach` body of stage 2: build the table object and store it
under `table.id` (a no-op is unreachable because the list was filtered to
non-null descriptions). -/
def tableFoldStep (acc : JObj) (ts : TableSchema) : JObj :=
  match ts.description with
  | some d =>
    let table := tableObjOf ts d
    objSet acc (toPropKey (pGet (.obj table) "id")) (.obj table)
  | none => acc

/-- Stage 2, table materialisation (lines 108–131): filter to schemas with
non-null description, then accumulate keyed by `table.id`. -/
def buildServerTables : Option ActiveTab → JObj
  | none => []
  | some activeTab =>
    (activeTab.table_schemas.filter (fun ts => ts.description.isSome)).foldl
      tableFoldStep []

/-- One step of the legacy editor overlay (lines 154–166): the merged
object literal `{...queryEditors[qe.id], ...qe, name: qe.title || qe.name,
...(unsavedQueryEditor.id === qe.id && unsavedQueryEditor),
inLocalStorage: true, loaded: true}`.  (Spreading the `false` a failed `&&`
produces contributes nothing.) -/
def mergeLegacyEditor (existing qe unsaved : JValue) : JObj :=
  let m := spreadInto [] existing
  let m := spreadInto m qe
  let m := objSet m "name" (jsOr (pGet qe "title") (pGet qe "name"))
  let m :=
    if jsStrictEq (pGet unsaved "id") (pGet qe "id") then spreadInto m unsaved
    else m
  let m := objSet m "inLocalStorage" (.bool true)
  objSet m "loaded" (.bool true)

def overlayEditorsStep (unsaved : JValue) (acc : JObj) (qe : JValue) :
    Except JsErr JObj := do
  let idv ← jsGet qe "id"
  let key := toPropKey idv
  let existing := (objGet acc key).getD .undef
  .ok (objSet acc key (.obj (mergeLegacyEditor existing qe unsaved)))

def overlayEditors (unsaved : JValue) (acc : JObj) (qes : List JValue) :
    Except JsErr JObj :=
  qes.foldlM (overlayEditorsStep unsaved) acc

/-- One step of the legacy table overlay (lines 168–181).  Note the inner
spread `{...tables[table.id], ...}` reads the *pre-overlay* `tables`
variable (`tables0`), not the reduce accumulator. -/
def overlayTablesStep (tables0 : JObj) (st : JObj × List JValue)
    (table : JValue) : Except JsErr (JObj × List JValue) := do
  let merged := st.1
  let expandedTables := st.2
  let qeid ← jsGet table "queryEditorId"
  let expanded := !(expandedTables.any (fun x => jsStrictEq x qeid))
  let expandedTables' :=
    if expanded then expandedTables ++ [qeid] else expandedTables
  let idv ← jsGet table "id"
  let key := toPropKey idv
  let base := (objGet tables0 key).getD .undef
  let v := objSet (spreadInto (spreadInto [] base) table) "expanded" (.bool expanded)
  .ok (objSet merged key (.obj v), expandedTables')

def overlayTables (tables0 : JObj) (ts : List JValue) :
    Except JsErr (JObj × List JValue) :=
  ts.foldlM (overlayTablesStep tables0) (tables0, [])

/-- One step of the legacy query overlay (lines 182–184):
`queries[query.id] = {...query, inLocalStorage: true}`. -/
def overlayQueriesStep (acc : JObj) (query : JValue) : Except JsErr JObj := do
  let idv ← jsGet query "id"
  .ok (objSet acc (toPropKey idv)
        (.obj (objSet (spreadInto [] query) "inLocalStorage" (.bool true))))

def overlayQueries (acc : JObj) (sqlLabQueries : JValue) : Except JsErr JObj := do
  let vs ← jsValuesOf sqlLabQueries
  vs.foldlM overlayQueriesStep acc

/-- Result of the legacy-overlay stage (lines 140–187): the five mutated
accumulators plus the `localStorage.removeItem('redux')` effect flag. -/
structure OverlayOut where
  queryEditors : JObj
  tables : JObj
  queries : JObj
  tabHistory : List JValue
  unsavedQueryEditor : JValue
  removedRedux : Bool

def noOverlay (serverEditors tables0 queries0 : JObj)
    (seedTabHistory : List JValue) : OverlayOut :=
  { queryEditors := serverEditors, tables := tables0, queries := queries0,
    tabHistory := seedTabHistory, unsavedQueryEditor := .obj [],
    removedRedux := false }

/-- `JSON.parse(localStorageData)`: a parse failure is the thrown
`SyntaxError`. -/
def parseOrThrow (s : String) : Except JsErr JValue :=
  match jsonParse s with
  | .ok v => .ok v
  | .error _ => .error JsErr.syntaxError

/-- Stage 3, the legacy overlay (lines 140–187).  `localStorageData` is the
`localStorage.getItem('redux')` result (`none` = `null`).  The ternary
guards the parse behind truthiness of the slot (so the empty string skips
parsing); `JSON.parse` throws `SyntaxError` on invalid JSON; inside the
overlay, shape violations surface as `TypeError` exactly where the source
would throw. -/
def runLegacyOverlay (localStorageData : Option String)
    (serverEditors tables0 queries0 : JObj) (seedTabHistory : List JValue) :
    Except JsErr OverlayOut :=
  match localStorageData with
  | none => .ok (noOverlay serverEditors tables0 queries0 seedTabHistory)
  | some s =>
    if s = "" then .ok (noOverlay serverEditors tables0 queries0 seedTabHistory)
    else do
      let parsed ← parseOrThrow s
      if truthy (optGet parsed "sqlLab") then do
        let sqlLab := optGet parsed "sqlLab"
        let qeListVal := pGet sqlLab "queryEditors"
        let len ← jsGet qeListVal "length"
        if jsStrictEq len (.num 0) then
          .ok { noOverlay serverEditors tables0 queries0 seedTabHistory with
                removedRedux := true }
        else do
          let unsaved := jsOr (pGet sqlLab "unsavedQueryEditor") (.obj [])
          let qes ← asArr qeListVal
          let queryEditors ← overlayEditors unsaved serverEditors qes
          let tbls ← asArr (pGet sqlLab "tables")
          let tablesPair ← overlayTables tables0 tbls
          let queries ← overlayQueries queries0 (pGet sqlLab "queries")
          let legacyHistory ← asIterable (pGet sqlLab "tabHistory")
          .ok { queryEditors := queryEditors, tables := tablesPair.1,
                queries := queries,
                tabHistory := seedTabHistory ++ legacyHistory,
                unsavedQueryEditor := unsaved, removedRedux := false }
      else .ok (noOverlay serverEditors tables0 queries0 seedTabHistory)

structure SqlLabSlice where
  activeSouthPaneTab : String
  alerts : List JValue
  databases : JValue
  offline : Bool
  queries : JObj
  queryEditors : List JValue
  tabHistory : List JValue
  tables : List JValue
  queriesLastUpdate : Int
  editorTabLastUpdatedAt : Int
  queryCostEstimates : JObj
  unsavedQueryEditor : JValue

structure CommonOut where
  flash_messages : JValue
  conf : Conf

structure InitialStateResult where
  sqlLab : SqlLabSlice
  messageToasts : JValue
  localStorageUsageInKilobytes : Int
  common : CommonOut
  user : JValue
  removedRedux : Bool

/-- Stage 4, assembly: the returned object literal (lines 189–213). -/
def assembleState (input : BootstrapInput) (ov : OverlayOut)
    (now1 now2 : Int) : InitialStateResult :=
  { sqlLab :=
      { activeSouthPaneTab := "Results",
        alerts := [],
        databases := input.databases,
        offline := false,
        queries := ov.queries,
        queryEditors := jsValues ov.queryEditors,
        tabHistory := dedupeTabHistory ov.tabHistory,
        tables := jsValues ov.tables,
        queriesLastUpdate := now2,
        editorTabLastUpdatedAt := now1,
        queryCostEstimates := [],
        unsavedQueryEditor := ov.unsavedQueryEditor },
    messageToasts := getToastsFromPyFlashMessages input.common.flash_messages,
    localStorageUsageInKilobytes := 0,
    common :=
      { flash_messages := input.common.flash_messages,
        conf := input.common.conf },
    user := input.user,
    removedRedux := ov.removedRedux }

/-- The server-seeded tab history (line 107). -/
def seedTabHistory (activeTab : Option ActiveTab) : List JValue :=
  match activeTab with
  | some at' => [.str (toString at'.id)]
  | none => []

/-- `getInitialState` (lines 38–214).  `localStorageData` is the value of
the `'redux'` slot, `now1`/`now2` the two `Date.now()` results
(`editorTabLastUpdatedAt`, line 109, and `queriesLastUpdate`, line 199).
`.error` models an exception escaping to the caller. -/
def getInitialState (input : BootstrapInput)
    (localStorageData : Option String) (now1 now2 : Int) :
    Except JsErr InitialStateResult := do
  let serverEditors :=
    buildServerEditors input.common input.active_tab input.tab_state_ids
  let tables0 := buildServerTables input.active_tab
  let queries0 := spreadInto [] input.queries_
  let ov ← runLegacyOverlay localStorageData serverEditors tables0 queries0
    (seedTabHistory input.active_tab)
  .ok (assembleState input ov now1 now2)

/-! ## Specification-side definitions

Definitions written from the claims' wording, to be compared with the
source-side definitions above, plus small projection helpers and concrete
inputs used by witnesses and counterexamples. -/

def optOr (a b : Option JValue) : Option JValue :=
  match a with
  | some v => some v
  | none => b

/-- The own enumerable entry a value contributes for key `k` under spread:
the *last* contributed binding for `k` wins (JS property writes overwrite). -/
def getOwnEnum (v : JValue) (k : String) : Option JValue :=
  objGet (ownEntriesList v).reverse k

/-- Claim C5's contract: collapse each maximal run of consecutive equal ids
to a single occurrence, preserving non-adjacent repeats and overall order. -/
def collapseAdjGo (prev : String) : List String → List String
  | [] => []
  | b :: r => if b = prev then collapseAdjGo prev r else b :: collapseAdjGo b r

def collapseAdj : List String → List String
  | [] => []
  | a :: rest => a :: collapseAdjGo a rest

/-- Claim C1's description of one merged editor, as a per-field lookup table
(later sources override earlier ones): the `loaded`/`inLocalStorage` stamps
win; then the UnsavedQueryEditor patch when its id strictly equals the
legacy entry's id; then the `name` computed from the legacy `title`/`name`;
then the legacy entry's own fields; then the existing entry's fields. -/
def specMergedField (existing qe unsaved : JValue) (k : String) : Option JValue :=
  if k = "loaded" then some (.bool true)
  else if k = "inLocalStorage" then some (.bool true)
  else if jsStrictEq (pGet unsaved "id") (pGet qe "id")
          && (getOwnEnum unsaved k).isSome then getOwnEnum unsaved k
  else if k = "name" then some (jsOr (pGet qe "title") (pGet qe "name"))
  else optOr (getOwnEnum qe k) (getOwnEnum existing k)

/-- Claim C9's description of the merge applied to an editor whose id does
not match the UnsavedQueryEditor patch: only the legacy merge, the
`title`→`name` mapping and the two stamps — no patch overlay. -/
def mergeEditorNoPatch (existing qe : JValue) : JObj :=
  objSet
    (objSet
      (objSet (spreadInto (spreadInto [] existing) qe) "name"
        (jsOr (pGet qe "title") (pGet qe "name")))
      "inLocalStorage" (.bool true))
    "loaded" (.bool true)

/-- The map key a legacy editor/table/query entry is stored under. -/
def keyOf (v : JValue) : String := toPropKey (pGet v "id")

def jvString : JValue → Option String
  | .str s => some s
  | _ => none

def jvBool : JValue → Option Bool
  | .bool b => some b
  | _ => none

/-! Concrete inputs for witnesses and counterexamples. -/

def conf0 : Conf := { SQLLAB_DEFAULT_DBID := .num 1, DEFAULT_SQLLAB_LIMIT := .num 1000 }

def common0 : Common := { conf := conf0, flash_messages := .arr [] }

/-- Server state with one tab record `{id: 5, label: "Query 5"}`. -/
def inputTab5 : BootstrapInput :=
  { common := common0, active_tab := none,
    tab_state_ids := [⟨5, "Query 5"⟩],
    databases := .obj [], queries_ := .undef, user := .null }

/-- Server state with two tab records, ids 5 then 2, in that insertion
order. -/
def inputTabs52 : BootstrapInput :=
  { common := common0, active_tab := none,
    tab_state_ids := [⟨5, "A"⟩, ⟨2, "B"⟩],
    databases := .obj [], queries_ := .undef, user := .null }

/-- Server state with one query `q1` with `status: "success"`. -/
def inputQ1 : BootstrapInput :=
  { common := common0, active_tab := none, tab_state_ids := [],
    databases := .obj [],
    queries_ := .obj [("q1", .obj [("id", .str "q1"), ("status", .str "success")])],
    user := .null }

/-- Legacy slot: editor `{id: 5, title: "Renamed"}` (claim C1's example). -/
def slotC1 : String :=
  "\x7b\"sqlLab\":\x7b\"queryEditors\":[\x7b\"id\":5,\"title\":\"Renamed\"\x7d],\"tables\":[],\"queries\":\x7b\x7d,\"tabHistory\":[]\x7d\x7d"

/-- Legacy slot: tables `[{id:1,queryEditorId:"A"},{id:2,queryEditorId:"A"},{id:3,queryEditorId:"B"}]` (claim C2's example). -/
def slotC2 : String :=
  "\x7b\"sqlLab\":\x7b\"queryEditors\":[\x7b\"id\":\"e\"\x7d],\"tables\":[\x7b\"id\":1,\"queryEditorId\":\"A\"\x7d,\x7b\"id\":2,\"queryEditorId\":\"A\"\x7d,\x7b\"id\":3,\"queryEditorId\":\"B\"\x7d],\"queries\":\x7b\x7d,\"tabHistory\":[]\x7d\x7d"

/-- Legacy slot: empty editor list (clean slate, claim C4's case). -/
def slotC4 : String := "\x7b\"sqlLab\":\x7b\"queryEditors\":[]\x7d\x7d"

/-- Legacy slot: query `q1` with `status: "failed"` (claim C7's example). -/
def slotC7 : String :=
  "\x7b\"sqlLab\":\x7b\"queryEditors\":[\x7b\"id\":\"e\"\x7d],\"tables\":[],\"queries\":\x7b\"q1\":\x7b\"id\":\"q1\",\"status\":\"failed\"\x7d\x7d,\"tabHistory\":[]\x7d\x7d"

/-- Legacy slot: non-empty editor list, no `unsavedQueryEditor` key. -/
def slotC9 : String :=
  "\x7b\"sqlLab\":\x7b\"queryEditors\":[\x7b\"id\":\"1\"\x7d],\"tables\":[],\"queries\":\x7b\x7d,\"tabHistory\":[]\x7d\x7d"


/-- A table schema with a description (used by claim C8's witness). -/
def tsA : TableSchema :=
  { id := 1, database_id := .num 7, tab_state_id := 5, schema := .null,
    table := .str "t1", expanded := .bool false,
    description := some [("dataPreviewQueryId", .str "q9"), ("x", .num 3)] }

/-- A table schema with a null description (excluded by the filter). -/
def tsB : TableSchema :=
  { id := 2, database_id := .num 7, tab_state_id := 5, schema := .null,
    table := .str "t2", expanded := .bool true, description := none }

def atW : ActiveTab :=
  { id := 5, label := "L", sql := .str "", latest_query := none,
    saved_query := none, autorun := .bool false, template_params := .null,
    database_id := .num 7, schema := .null, query_limit := .num 100,
    hide_left_bar := .bool false, table_schemas := [tsA, tsB] }

/-! ## Lemmas about the object model -/

theorem objGet_objSet_same (m : JObj) (k : String) (v : JValue) :
    objGet (objSet m k v) k = some v := by
  induction m with
  | nil => simp [objSet, objGet]
  | cons e rest ih =>
    by_cases h : e.1 = k
    · simp [objSet, objGet, h]
    · simp [objSet, objGet, h, ih]

theorem objGet_objSet_ne (m : JObj) {k k' : String} (v : JValue) (h : k' ≠ k) :
    objGet (objSet m k v) k' = objGet m k' := by
  have h' : ¬k = k' := fun hh => h hh.symm
  induction m with
  | nil => simp [objSet, objGet, h']
  | cons e rest ih =>
    obtain ⟨ek, ev⟩ := e
    by_cases he : ek = k
    · subst he
      simp [objSet, objGet, h']
    · by_cases he' : ek = k'
      · simp [objSet, objGet, he, he', h]
      · simp [objSet, objGet, he, he', ih]

theorem objGet_append (a b : JObj) (k : String) :
    objGet (a ++ b) k = optOr (objGet a k) (objGet b k) := by
  induction a with
  | nil => simp [objGet, optOr]
  | cons e rest ih =>
    by_cases h : e.1 = k
    · simp [objGet, optOr, h]
    · simp [objGet, optOr, h, ih]

theorem foldl_objSet_objGet (es : JObj) : ∀ (m : JObj) (k : String),
    objGet (es.foldl (fun m e => objSet m e.1 e.2) m) k
      = optOr (objGet es.reverse k) (objGet m k) := by
  induction es with
  | nil => simp [objGet, optOr]
  | cons e tl ih =>
    intro m k
    rw [List.foldl_cons, ih, List.reverse_cons, objGet_append]
    cases hh : objGet tl.reverse k with
    | some v => simp [optOr, hh]
    | none =>
      by_cases he : e.1 = k
      · subst he
        simp [optOr, objGet_objSet_same, objGet]
      · rw [objGet_objSet_ne _ _ (fun hk => he hk.symm)]
        simp [optOr, objGet, he]

theorem spreadInto_objGet (m : JObj) (v : JValue) (k : String) :
    objGet (spreadInto m v) k = optOr (getOwnEnum v k) (objGet m k) :=
  foldl_objSet_objGet (ownEntriesList v) m k

theorem jsStrictEq_eq {a b : JValue} (h : jsStrictEq a b = true) : a = b := by
  cases a <;> cases b <;> simp_all [jsStrictEq]

/-! ## Lemmas about `dedupeTabHistory` -/

theorem getLast?_undef_cons (acc : List JValue) :
    (JValue.undef :: acc).getLast? = some (jsLastElem acc) := by
  cases acc with
  | nil => rfl
  | cons a l =>
    rw [List.getLast?_cons_cons]
    unfold jsLastElem
    cases h : (a :: l).getLast? with
    | some x => rfl
    | none => simp at h

theorem dedupe_chain_aux (l : List JValue) :
    ∀ acc, List.Chain' (fun a b => jsStrictEq a b = false) (.undef :: acc) →
      List.Chain' (fun a b => jsStrictEq a b = false)
        (.undef :: List.foldl dedupeStep acc l) := by
  induction l with
  | nil => intro acc h; exact h
  | cons t r ih =>
    intro acc h
    rw [List.foldl_cons]
    apply ih
    unfold dedupeStep
    by_cases hc : jsStrictEq (jsLastElem acc) t = true
    · simp only [hc, if_true]; exact h
    · have hc' : jsStrictEq (jsLastElem acc) t = false := by
        simpa using hc
      simp only [hc', Bool.false_eq_true, if_false]
      rw [← List.cons_append]
      apply List.Chain'.append h (List.chain'_singleton t)
      intro x hx y hy
      rw [getLast?_undef_cons] at hx
      simp at hx hy
      subst hx; subst hy
      exact hc'

theorem dedupe_foldl_of_chain (l : List JValue) :
    ∀ (acc : List JValue) (prev : JValue), acc.getLast? = some prev →
      List.Chain' (fun a b => jsStrictEq a b = false) (prev :: l) →
      List.foldl dedupeStep acc l = acc ++ l := by
  induction l with
  | nil => intros; simp
  | cons b r ih =>
    intro acc prev hlast hch
    rw [List.chain'_cons] at hch
    obtain ⟨hpb, hch'⟩ := hch
    rw [List.foldl_cons]
    have hstep : dedupeStep acc b = acc ++ [b] := by
      unfold dedupeStep jsLastElem
      rw [hlast]
      simp [hpb]
    rw [hstep, ih (acc ++ [b]) b (by simp) hch']
    simp

/-- C10: `dedupeTabHistory` is idempotent: for every input sequence,
applying it to its own output yields the same result as applying it once. -/
theorem claim10_dedupe_idempotent (l : List JValue) :
    dedupeTabHistory (dedupeTabHistory l) = dedupeTabHistory l := by
  have hch : List.Chain' (fun a b => jsStrictEq a b = false)
      (.undef :: dedupeTabHistory l) :=
    dedupe_chain_aux l [] (List.chain'_singleton _)
  unfold dedupeTabHistory at *
  cases ho : List.foldl dedupeStep [] l with
  | nil => simp
  | cons h rest =>
    rw [ho] at hch
    rw [List.chain'_cons] at hch
    obtain ⟨hh, hch'⟩ := hch
    rw [List.foldl_cons]
    have hstep : dedupeStep [] h = [h] := by
      unfold dedupeStep jsLastElem
      simp [hh]
    rw [hstep, dedupe_foldl_of_chain rest [h] h (by simp) hch']
    simp

theorem dedupe_map_str_aux (rest : List String) :
    ∀ (acc : List JValue) (prev : String), acc.getLast? = some (.str prev) →
      List.foldl dedupeStep acc (rest.map .str)
        = acc ++ (collapseAdjGo prev rest).map .str := by
  induction rest with
  | nil => intros; simp [collapseAdjGo]
  | cons b r ih =>
    intro acc prev hlast
    rw [List.map_cons, List.foldl_cons]
    by_cases hb : b = prev
    · subst hb
      have hstep : dedupeStep acc (.str b) = acc := by
        unfold dedupeStep jsLastElem
        rw [hlast]
        simp [jsStrictEq]
      rw [hstep, ih acc b hlast]
      simp [collapseAdjGo]
    · have hstep : dedupeStep acc (.str b) = acc ++ [.str b] := by
        unfold dedupeStep jsLastElem
        rw [hlast]
        simp [jsStrictEq]
        exact fun hh => hb hh.symm
      have hl : (acc ++ [JValue.str b]).getLast? = some (JValue.str b) := by simp
      rw [hstep, ih (acc ++ [JValue.str b]) b hl]
      simp [collapseAdjGo, hb]

/-- C5: `dedupeTabHistory` is an adjacency-only filter: on any sequence of
(string) ids it collapses each maximal run of consecutive equal ids to one
occurrence (`collapseAdj`, the claim's contract), preserving non-adjacent
repeats and order; it is total on the empty sequence, returning the empty
sequence; and on `[a, a, b, a]` it returns `[a, b, a]`, not `[a, b]`. -/
theorem claim5_dedupe_adjacency_only :
    (∀ l : List String, dedupeTabHistory (l.map .str) = (collapseAdj l).map .str)
    ∧ dedupeTabHistory [] = []
    ∧ dedupeTabHistory [.str "a", .str "a", .str "b", .str "a"]
        = [.str "a", .str "b", .str "a"] := by
  refine ⟨?_, rfl, rfl⟩
  intro l
  cases l with
  | nil => rfl
  | cons a rest =>
    unfold dedupeTabHistory
    rw [List.map_cons, List.foldl_cons]
    have hstep : dedupeStep [] (.str a) = [.str a] := by
      unfold dedupeStep jsLastElem
      simp [jsStrictEq]
    rw [hstep, dedupe_map_str_aux rest [.str a] a (by simp)]
    simp [collapseAdj]

/-! ## Lemmas about the overlay paths -/

theorem jsonParse_empty : jsonParse "" = .error () := rfl

theorem exceptBindOk {α β : Type} (a : α) (f : α → Except JsErr β) :
    (Except.ok a >>= f : Except JsErr β) = f a := rfl

theorem getInitialState_eq (input : BootstrapInput) (slot : Option String)
    (n1 n2 : Int) :
    getInitialState input slot n1 n2 =
      (runLegacyOverlay slot
        (buildServerEditors input.common input.active_tab input.tab_state_ids)
        (buildServerTables input.active_tab) (spreadInto [] input.queries_)
        (seedTabHistory input.active_tab)).map
        (fun ov => assembleState input ov n1 n2) := by
  simp only [getInitialState]
  cases hr : runLegacyOverlay slot
      (buildServerEditors input.common input.active_tab input.tab_state_ids)
      (buildServerTables input.active_tab) (spreadInto [] input.queries_)
      (seedTabHistory input.active_tab) with
  | ok ov => rfl
  | error e => rfl

theorem runLegacyOverlay_none (se t0 q0 : JObj) (th : List JValue) :
    runLegacyOverlay none se t0 q0 th = .ok (noOverlay se t0 q0 th) := rfl

theorem runLegacyOverlay_falsy (s : String) (v : JValue) (se t0 q0 : JObj)
    (th : List JValue) (hv : jsonParse s = .ok v)
    (hf : truthy (optGet v "sqlLab") = false) :
    runLegacyOverlay (some s) se t0 q0 th = .ok (noOverlay se t0 q0 th) := by
  have hs : ¬s = "" := by
    intro h
    subst h
    rw [jsonParse_empty] at hv
    exact Except.noConfusion hv
  have hp : parseOrThrow s = .ok v := by
    simp [parseOrThrow, hv]
  unfold runLegacyOverlay
  simp [hs, hp, hf, exceptBindOk]

theorem runLegacyOverlay_clean (s : String) (v sl : JValue) (se t0 q0 : JObj)
    (th : List JValue) (hv : jsonParse s = .ok v)
    (hsl : optGet v "sqlLab" = sl) (ht : truthy sl = true)
    (hqe : pGet sl "queryEditors" = .arr []) :
    runLegacyOverlay (some s) se t0 q0 th
      = .ok { noOverlay se t0 q0 th with removedRedux := true } := by
  have hs : ¬s = "" := by
    intro h
    subst h
    rw [jsonParse_empty] at hv
    exact Except.noConfusion hv
  have hp : parseOrThrow s = .ok v := by
    simp [parseOrThrow, hv]
  unfold runLegacyOverlay
  simp only [hs, if_false, hp, exceptBindOk]
  simp only [hsl, ht, hqe, if_true]
  simp [exceptBindOk, jsGet, nullish, pGet, jsStrictEq]

set_option maxRecDepth 40000

/-- C3 (as stated) is false: a legacy slot whose content is present but not
valid JSON is *not* recovered — `JSON.parse` throws and the exception
surfaces to the caller (`.error .syntaxError`, at slot content `"{"`), and
a slot that is valid JSON but carries a truthy non-conforming `sqlLab`
(content `{"sqlLab":5}`) throws a `TypeError` reading
`sqlLab.queryEditors.length`; in neither case does the call return the
server-only state. -/
theorem claim3_counterexample :
    getInitialState inputTab5 (some "\x7b") 0 0 = .error .syntaxError
    ∧ getInitialState inputTab5 (some "\x7b\"sqlLab\":5\x7d") 0 0
        = .error .typeError
    ∧ getInitialState inputTab5 none 0 0
        = .ok (assembleState inputTab5
            (noOverlay (buildServerEditors common0 none [⟨5, "Query 5"⟩]) [] []
              []) 0 0) :=
  ⟨rfl, rfl, rfl⟩

/-- C3 (amended): a present legacy slot that is valid JSON whose `sqlLab`
property is absent or otherwise falsy — and likewise the falsy
empty-string slot — is treated as absence of legacy state: no exception
surfaces and the returned state equals the state computed from the
server-sourced inputs alone.  (A slot that is not valid JSON instead
raises, see `claim3_counterexample`.) -/
theorem claim3_falsy_sqlLab_recovered (input : BootstrapInput) (s : String)
    (n1 n2 : Int)
    (h : s = "" ∨ ∃ v, jsonParse s = .ok v ∧ truthy (optGet v "sqlLab") = false) :
    getInitialState input (some s) n1 n2 = getInitialState input none n1 n2 := by
  rw [getInitialState_eq, getInitialState_eq, runLegacyOverlay_none]
  rcases h with h | ⟨v, hv, hf⟩
  · subst h
    rfl
  · rw [runLegacyOverlay_falsy s v _ _ _ _ hv hf]

theorem claim3_witness :
    jsonParse "\x7b\"a\":1\x7d" = .ok (.obj [("a", .num 1)])
    ∧ truthy (optGet (.obj [("a", .num 1)]) "sqlLab") = false
    ∧ getInitialState inputTab5 (some "\x7b\"a\":1\x7d") 0 0
        = getInitialState inputTab5 none 0 0 :=
  ⟨rfl, rfl,
    claim3_falsy_sqlLab_recovered inputTab5 "\x7b\"a\":1\x7d" 0 0
      (Or.inr ⟨.obj [("a", .num 1)], rfl, rfl⟩)⟩

/-- C4: if the legacy slot parses to an object whose `sqlLab` is truthy and
whose `queryEditors` list is the empty array, `getInitialState` removes the
legacy storage slot (`removedRedux = true`) and performs no overlay work:
the returned state is the server-only state, unchanged in every field. -/
theorem claim4_clean_slate (input : BootstrapInput) (s : String) (v sl : JValue)
    (n1 n2 : Int) (hv : jsonParse s = .ok v) (hsl : optGet v "sqlLab" = sl)
    (ht : truthy sl = true) (hqe : pGet sl "queryEditors" = .arr []) :
    getInitialState input (some s) n1 n2
      = (getInitialState input none n1 n2).map
          (fun r => { r with removedRedux := true }) := by
  rw [getInitialState_eq, getInitialState_eq, runLegacyOverlay_none,
      runLegacyOverlay_clean s v sl _ _ _ _ hv hsl ht hqe]
  rfl

theorem claim4_witness :
    jsonParse slotC4 = .ok (.obj [("sqlLab", .obj [("queryEditors", .arr [])])])
    ∧ getInitialState inputTab5 (some slotC4) 0 0
        = (getInitialState inputTab5 none 0 0).map
            (fun r => { r with removedRedux := true }) :=
  ⟨rfl,
    claim4_clean_slate inputTab5 slotC4
      (.obj [("sqlLab", .obj [("queryEditors", .arr [])])])
      (.obj [("queryEditors", .arr [])]) 0 0 rfl rfl rfl rfl⟩

/-! ## Claim C7: query overlay -/

theorem optOr_none_right (a : Option JValue) : optOr a none = a := by
  cases a <;> rfl

theorem overlayQueriesStep_ok (q0 : JObj) (q : JValue)
    (hq : nullish q = false) :
    overlayQueriesStep q0 q
      = .ok (objSet q0 (keyOf q)
          (.obj (objSet (spreadInto [] q) "inLocalStorage" (.bool true)))) := by
  unfold overlayQueriesStep
  simp [jsGet, hq, keyOf, exceptBindOk]

theorem overlayQueries_aux (qs : List JValue) : ∀ q0 : JObj,
    (∀ q ∈ qs, nullish q = false) →
    ∃ m, List.foldlM overlayQueriesStep q0 qs = .ok m
      ∧ (∀ k, k ∉ qs.map keyOf → objGet m k = objGet q0 k)
      ∧ ((qs.map keyOf).Nodup → ∀ q ∈ qs,
          objGet m (keyOf q)
            = some (.obj (objSet (spreadInto [] q) "inLocalStorage" (.bool true)))) := by
  induction qs with
  | nil =>
    intro q0 _
    exact ⟨q0, rfl, fun k _ => rfl, fun _ q hq => absurd hq (List.not_mem_nil q)⟩
  | cons q rest ih =>
    intro q0 hn
    have hq : nullish q = false := hn q (List.mem_cons_self q rest)
    set v : JValue :=
      .obj (objSet (spreadInto [] q) "inLocalStorage" (.bool true)) with hv
    obtain ⟨m, hfold, hframe, hvals⟩ :=
      ih (objSet q0 (keyOf q) v) (fun x hx => hn x (List.mem_cons_of_mem q hx))
    refine ⟨m, ?_, ?_, ?_⟩
    · rw [List.foldlM_cons, overlayQueriesStep_ok q0 q hq, exceptBindOk, hfold]
    · intro k hk
      rw [List.map_cons] at hk
      have hk1 : k ≠ keyOf q := fun h => hk (h ▸ List.mem_cons_self _ _)
      have hk2 : k ∉ rest.map keyOf := fun h => hk (List.mem_cons_of_mem _ h)
      rw [hframe k hk2, objGet_objSet_ne _ _ hk1]
    · intro hnd q' hq'
      rw [List.map_cons, List.nodup_cons] at hnd
      obtain ⟨hnotin, hnd'⟩ := hnd
      rcases List.mem_cons.mp hq' with h | h
      · subst h
        rw [hframe (keyOf q') hnotin, objGet_objSet_same]
      · exact hvals hnd' q' h

/-- C7: for every legacy query entry (a value of `sqlLab.queries`, all
non-nullish, stored under pairwise distinct property keys), the entry of
the query map keyed by the query's `id` is overwritten — or inserted if
absent — with the legacy query's own fields plus `inLocalStorage: true`;
every key not named by a legacy query keeps its server value.  In
particular, server queries `{q1: {id:"q1", status:"success"}}` merged with
legacy queries `{q1: {id:"q1", status:"failed"}}` yield `q1.status ===
"failed"` and `q1.inLocalStorage === true`. -/
theorem claim7_query_overlay :
    (∀ (q0 : JObj) (sq : JValue) (qs : List JValue),
      jsValuesOf sq = .ok qs →
      (∀ q ∈ qs, nullish q = false) →
      ∃ m, overlayQueries q0 sq = .ok m
        ∧ (∀ k, k ∉ qs.map keyOf → objGet m k = objGet q0 k)
        ∧ ((qs.map keyOf).Nodup → ∀ q ∈ qs,
            objGet m (keyOf q)
              = some (.obj (objSet (spreadInto [] q) "inLocalStorage" (.bool true)))))
    ∧ (getInitialState inputQ1 (some slotC7) 0 0).toOption.map
        (fun r => (objGet r.sqlLab.queries "q1").map
          (fun q => (jvString (pGet q "status"), jvBool (pGet q "inLocalStorage"))))
      = some (some (some "failed", some true)) := by
  constructor
  · intro q0 sq qs hsq hn
    obtain ⟨m, hfold, hframe, hvals⟩ := overlayQueries_aux qs q0 hn
    refine ⟨m, ?_, hframe, hvals⟩
    unfold overlayQueries
    rw [hsq, exceptBindOk, hfold]
  · rfl

theorem claim7_witness :
    jsValuesOf (.obj [("q1", .obj [("id", .str "q1"), ("status", .str "failed")])])
      = .ok [.obj [("id", .str "q1"), ("status", .str "failed")]]
    ∧ (∃ m, overlayQueries [("q1", .obj [("id", .str "q1"), ("status", .str "success")])]
          (.obj [("q1", .obj [("id", .str "q1"), ("status", .str "failed")])])
        = .ok m
        ∧ (∀ k, k ∉ [JValue.obj [("id", .str "q1"), ("status", .str "failed")]].map keyOf →
            objGet m k = objGet [("q1", .obj [("id", .str "q1"), ("status", .str "success")])] k)
        ∧ (([JValue.obj [("id", .str "q1"), ("status", .str "failed")]].map keyOf).Nodup →
            ∀ q ∈ [JValue.obj [("id", .str "q1"), ("status", .str "failed")]],
              objGet m (keyOf q)
                = some (.obj (objSet (spreadInto [] q) "inLocalStorage" (.bool true))))) := by
  refine ⟨rfl, claim7_query_overlay.1 _ _ _ rfl ?_⟩
  intro q hq
  simp at hq
  subst hq
  rfl

/-! ## Claim C1: editor overlay -/

theorem mergeLegacyEditor_objGet (existing qe unsaved : JValue) (k : String) :
    objGet (mergeLegacyEditor existing qe unsaved) k
      = specMergedField existing qe unsaved k := by
  unfold mergeLegacyEditor specMergedField
  by_cases hk1 : k = "loaded"
  · subst hk1
    rw [objGet_objSet_same]
    simp
  · rw [objGet_objSet_ne _ _ hk1]
    by_cases hk2 : k = "inLocalStorage"
    · subst hk2
      rw [objGet_objSet_same]
      simp [hk1]
    · rw [objGet_objSet_ne _ _ hk2]
      by_cases hc : jsStrictEq (pGet unsaved "id") (pGet qe "id") = true
      · rw [if_pos hc, spreadInto_objGet]
        cases hu : getOwnEnum unsaved k with
        | some w => simp [optOr, hk1, hk2, hc, hu]
        | none =>
          simp only [optOr]
          by_cases hk3 : k = "name"
          · subst hk3
            rw [objGet_objSet_same]
            simp [hk1, hk2, hc, hu]
          · rw [objGet_objSet_ne _ _ hk3, spreadInto_objGet, spreadInto_objGet]
            simp only [hk1, hk2, hk3, hc, hu, objGet, if_false, if_true,
              Bool.and_true, Bool.and_false, Option.isSome_none, if_neg]
            simp [optOr, hk1, hk2, hk3]
            cases getOwnEnum qe k <;> cases getOwnEnum existing k <;> rfl
      · have hcf : jsStrictEq (pGet unsaved "id") (pGet qe "id") = false := by
          simpa using hc
        rw [if_neg hc]
        by_cases hk3 : k = "name"
        · subst hk3
          rw [objGet_objSet_same]
          simp [hk1, hk2, hcf]
        · rw [objGet_objSet_ne _ _ hk3, spreadInto_objGet, spreadInto_objGet]
          simp [optOr, hk1, hk2, hk3, hcf, objGet]
          cases getOwnEnum qe k <;> cases getOwnEnum existing k <;> rfl

theorem overlayEditorsStep_ok (unsaved : JValue) (acc : JObj) (qe : JValue)
    (hq : nullish qe = false) :
    overlayEditorsStep unsaved acc qe
      = .ok (objSet acc (keyOf qe)
          (.obj (mergeLegacyEditor ((objGet acc (keyOf qe)).getD .undef) qe
            unsaved))) := by
  unfold overlayEditorsStep
  simp [jsGet, hq, keyOf, exceptBindOk]

theorem overlayEditors_aux (unsaved : JValue) (qes : List JValue) :
    ∀ m0 : JObj, (∀ qe ∈ qes, nullish qe = false) →
    ∃ m, overlayEditors unsaved m0 qes = .ok m
      ∧ (∀ k, k ∉ qes.map keyOf → objGet m k = objGet m0 k)
      ∧ ((qes.map keyOf).Nodup → ∀ qe ∈ qes,
          ∃ fields, objGet m (keyOf qe) = some (.obj fields)
            ∧ ∀ k, objGet fields k
                = specMergedField ((objGet m0 (keyOf qe)).getD .undef) qe
                    unsaved k) := by
  induction qes with
  | nil =>
    intro m0 _
    exact ⟨m0, rfl, fun k _ => rfl, fun _ qe hqe => absurd hqe (List.not_mem_nil qe)⟩
  | cons qe rest ih =>
    intro m0 hn
    have hq : nullish qe = false := hn qe (List.mem_cons_self qe rest)
    set v : JValue :=
      .obj (mergeLegacyEditor ((objGet m0 (keyOf qe)).getD .undef) qe unsaved)
      with hv
    obtain ⟨m, hfold, hframe, hvals⟩ :=
      ih (objSet m0 (keyOf qe) v) (fun x hx => hn x (List.mem_cons_of_mem qe hx))
    refine ⟨m, ?_, ?_, ?_⟩
    · unfold overlayEditors at hfold ⊢
      rw [List.foldlM_cons, overlayEditorsStep_ok unsaved m0 qe hq, exceptBindOk,
        hfold]
    · intro k hk
      rw [List.map_cons] at hk
      have hk1 : k ≠ keyOf qe := fun h => hk (h ▸ List.mem_cons_self _ _)
      have hk2 : k ∉ rest.map keyOf := fun h => hk (List.mem_cons_of_mem _ h)
      rw [hframe k hk2, objGet_objSet_ne _ _ hk1]
    · intro hnd q' hq'
      rw [List.map_cons, List.nodup_cons] at hnd
      obtain ⟨hnotin, hnd'⟩ := hnd
      rcases List.mem_cons.mp hq' with h | h
      · subst h
        refine ⟨mergeLegacyEditor ((objGet m0 (keyOf q')).getD .undef) q' unsaved,
          ?_, fun k => mergeLegacyEditor_objGet _ _ _ _⟩
        rw [hframe (keyOf q') hnotin, objGet_objSet_same]
      · have hne : keyOf q' ≠ keyOf qe := by
          intro h'
          exact hnotin (h' ▸ List.mem_map_of_mem keyOf h)
        obtain ⟨fields, hf1, hf2⟩ := hvals hnd' q' h
        refine ⟨fields, hf1, ?_⟩
        rw [objGet_objSet_ne _ _ hne] at hf2
        exact hf2

/-- C1: during the legacy editor overlay (legacy entries non-nullish, with
pairwise distinct property keys), the merged QueryEditor stored under each
legacy entry's id is exactly the per-field merge `specMergedField`: the
existing entry for that id (if any — entries with no counterpart merge
onto `undefined` and become new entries) overwritten by the legacy entry's
own fields, with `name` set to the legacy `title` when truthy else the
legacy `name`, the UnsavedQueryEditor patch further overlaid when its id
strictly equals the entry's id, and `inLocalStorage: true`, `loaded: true`
stamped last; keys not named by any legacy entry are untouched.  In
particular, for server editor `{id: 5, name: "Query 5"}` and legacy editor
`{id: 5, title: "Renamed"}`, the merged editor has name `"Renamed"`,
`inLocalStorage` true, `loaded` true. -/
theorem claim1_editor_overlay :
    (∀ (m0 : JObj) (unsaved : JValue) (qes : List JValue),
      (∀ qe ∈ qes, nullish qe = false) →
      (qes.map keyOf).Nodup →
      ∃ m, overlayEditors unsaved m0 qes = .ok m
        ∧ (∀ qe ∈ qes, ∃ fields,
            objGet m (keyOf qe) = some (.obj fields)
            ∧ objGet fields "inLocalStorage" = some (.bool true)
            ∧ objGet fields "loaded" = some (.bool true)
            ∧ ∀ k, objGet fields k
                = specMergedField ((objGet m0 (keyOf qe)).getD .undef) qe
                    unsaved k)
        ∧ (∀ k, k ∉ qes.map keyOf → objGet m k = objGet m0 k))
    ∧ (getInitialState inputTab5 (some slotC1) 0 0).toOption.map
        (fun r => r.sqlLab.queryEditors.map
          (fun v => (jvString (pGet v "name"), jvBool (pGet v "inLocalStorage"),
            jvBool (pGet v "loaded"))))
      = some [(some "Renamed", some true, some true)] := by
  constructor
  · intro m0 unsaved qes hn hnd
    obtain ⟨m, hfold, hframe, hvals⟩ := overlayEditors_aux unsaved qes m0 hn
    refine ⟨m, hfold, ?_, hframe⟩
    intro qe hqe
    obtain ⟨fields, hf1, hf2⟩ := hvals hnd qe hqe
    refine ⟨fields, hf1, ?_, ?_, hf2⟩
    · rw [hf2 "inLocalStorage"]
      rfl
    · rw [hf2 "loaded"]
      rfl
  · rfl

theorem claim1_witness :
    ∃ m, overlayEditors (.obj []) [] [.obj [("id", .str "a")]] = .ok m
      ∧ (∀ qe ∈ [JValue.obj [("id", .str "a")]], ∃ fields,
          objGet m (keyOf qe) = some (.obj fields)
          ∧ objGet fields "inLocalStorage" = some (.bool true)
          ∧ objGet fields "loaded" = some (.bool true)
          ∧ ∀ k, objGet fields k
              = specMergedField ((objGet ([] : JObj) (keyOf qe)).getD .undef) qe
                  (.obj []) k)
      ∧ (∀ k, k ∉ [JValue.obj [("id", .str "a")]].map keyOf →
          objGet m k = objGet ([] : JObj) k) :=
  claim1_editor_overlay.1 [] (.obj []) [.obj [("id", .str "a")]]
    (by decide) (by decide)

/-! ## Claim C2: expansion tie-break -/

theorem overlayTablesStep_ok (tables0 m1 : JObj) (s1 : List JValue)
    (t : JValue) (hq : nullish t = false) :
    overlayTablesStep tables0 (m1, s1) t
      = .ok (objSet m1 (keyOf t)
          (.obj (objSet
            (spreadInto (spreadInto [] ((objGet tables0 (keyOf t)).getD .undef)) t)
            "expanded"
            (.bool (!(s1.any (fun x => jsStrictEq x (pGet t "queryEditorId"))))))),
        if (!(s1.any (fun x => jsStrictEq x (pGet t "queryEditorId")))) = true
        then s1 ++ [pGet t "queryEditorId"] else s1) := by
  unfold overlayTablesStep
  simp [jsGet, hq, keyOf, exceptBindOk]

theorem overlayTables_seen (tables0 : JObj) (ts : List JValue) :
    ∀ (m0 : JObj) (s0 : List JValue), (∀ u ∈ ts, nullish u = false) →
    ∃ m s, List.foldlM (overlayTablesStep tables0) (m0, s0) ts = .ok (m, s)
      ∧ ∀ q, s.any (fun x => jsStrictEq x q)
          = (s0.any (fun x => jsStrictEq x q)
             || ts.any (fun u => jsStrictEq (pGet u "queryEditorId") q)) := by
  induction ts with
  | nil =>
    intro m0 s0 _
    exact ⟨m0, s0, rfl, fun q => by simp⟩
  | cons t r ih =>
    intro m0 s0 hn
    have ht : nullish t = false := hn t (List.mem_cons_self t r)
    have hn' : ∀ u ∈ r, nullish u = false :=
      fun x hx => hn x (List.mem_cons_of_mem t hx)
    cases hseen : s0.any (fun x => jsStrictEq x (pGet t "queryEditorId")) with
    | true =>
      obtain ⟨m, s, hfold, hφ⟩ :=
        ih (objSet m0 (keyOf t)
          (.obj (objSet
            (spreadInto (spreadInto [] ((objGet tables0 (keyOf t)).getD .undef)) t)
            "expanded" (.bool false)))) s0 hn'
      refine ⟨m, s, ?_, ?_⟩
      · rw [List.foldlM_cons, overlayTablesStep_ok tables0 m0 s0 t ht]
        simp only [hseen, Bool.not_true, Bool.false_eq_true, if_false,
          exceptBindOk]
        exact hfold
      · intro q
        rw [hφ q, List.any_cons]
        cases heq : jsStrictEq (pGet t "queryEditorId") q with
        | false => simp [heq]
        | true =>
          have hqq : pGet t "queryEditorId" = q := jsStrictEq_eq heq
          rw [← hqq, hseen]
          simp
    | false =>
      obtain ⟨m, s, hfold, hφ⟩ :=
        ih (objSet m0 (keyOf t)
          (.obj (objSet
            (spreadInto (spreadInto [] ((objGet tables0 (keyOf t)).getD .undef)) t)
            "expanded" (.bool true)))) (s0 ++ [pGet t "queryEditorId"]) hn'
      refine ⟨m, s, ?_, ?_⟩
      · rw [List.foldlM_cons, overlayTablesStep_ok tables0 m0 s0 t ht]
        simp only [hseen, Bool.not_false, if_true, exceptBindOk]
        exact hfold
      · intro q
        rw [hφ q, List.any_cons, List.any_append]
        simp [Bool.or_assoc]

/-- C2: during the legacy table overlay, scanning the legacy table entries
in their given order, the entry processed after prefix `p` gets
`expanded = true` exactly when no entry of `p` carries a strictly-equal
`queryEditorId` — the first entry for each distinct `queryEditorId` gets
`true`, every later one `false`, regardless of the `expanded` value the
legacy record carried (the computed flag overwrites it).  Consequently at
most one of the legacy-processed tables of any one `queryEditorId` is
expanded, and for legacy tables `[{id:1,queryEditorId:"A"},
{id:2,queryEditorId:"A"}, {id:3,queryEditorId:"B"}]` the result has table
1 expanded, table 2 not expanded, table 3 expanded. -/
theorem claim2_expansion_tiebreak :
    (∀ (tables0 : JObj) (p : List JValue) (t : JValue),
      (∀ u ∈ p, nullish u = false) → nullish t = false →
      ∃ m s, overlayTables tables0 (p ++ [t]) = .ok (m, s)
        ∧ ∃ fields, objGet m (keyOf t) = some (.obj fields)
          ∧ objGet fields "expanded"
              = some (.bool (!(p.any (fun u =>
                  jsStrictEq (pGet u "queryEditorId")
                    (pGet t "queryEditorId"))))))
    ∧ (getInitialState inputTab5 (some slotC2) 0 0).toOption.map
        (fun r => r.sqlLab.tables.map
          (fun v => (pGet v "id", jvBool (pGet v "expanded"))))
      = some [(.num 1, some true), (.num 2, some false), (.num 3, some true)] := by
  constructor
  · intro tables0 p t hn ht
    obtain ⟨m1, s1, hfold1, hφ⟩ := overlayTables_seen tables0 p tables0 [] hn
    have hseen : s1.any (fun x => jsStrictEq x (pGet t "queryEditorId"))
        = p.any (fun u =>
            jsStrictEq (pGet u "queryEditorId") (pGet t "queryEditorId")) := by
      rw [hφ (pGet t "queryEditorId")]
      simp
    refine ⟨objSet m1 (keyOf t)
        (.obj (objSet
          (spreadInto (spreadInto [] ((objGet tables0 (keyOf t)).getD .undef)) t)
          "expanded"
          (.bool (!(p.any (fun u =>
            jsStrictEq (pGet u "queryEditorId") (pGet t "queryEditorId"))))))),
      (if (!(p.any (fun u =>
          jsStrictEq (pGet u "queryEditorId") (pGet t "queryEditorId")))) = true
       then s1 ++ [pGet t "queryEditorId"] else s1), ?_, ?_⟩
    · unfold overlayTables
      rw [List.foldlM_append, hfold1, exceptBindOk, List.foldlM_cons,
        overlayTablesStep_ok tables0 m1 s1 t ht, exceptBindOk, hseen]
      rfl
    · exact ⟨_, objGet_objSet_same _ _ _, objGet_objSet_same _ _ _⟩
  · rfl

theorem claim2_witness :
    ∃ m s, overlayTables []
        [.obj [("id", .num 1), ("queryEditorId", .str "A")],
         .obj [("id", .num 2), ("queryEditorId", .str "A")]] = .ok (m, s)
      ∧ ∃ fields, objGet m (keyOf (.obj [("id", .num 2), ("queryEditorId", .str "A")]))
          = some (.obj fields)
        ∧ objGet fields "expanded"
            = some (.bool (!([JValue.obj [("id", .num 1), ("queryEditorId", .str "A")]].any
                (fun u => jsStrictEq (pGet u "queryEditorId")
                  (pGet (.obj [("id", .num 2), ("queryEditorId", .str "A")])
                    "queryEditorId"))))) :=
  claim2_expansion_tiebreak.1 []
    [.obj [("id", .num 1), ("queryEditorId", .str "A")]]
    (.obj [("id", .num 2), ("queryEditorId", .str "A")])
    (by decide) (by decide)

/-! ## Claim C8: table materializer -/

theorem objGet_dedupKeysAux (l : JObj) : ∀ (seen : List String) (k : String),
    objGet (dedupKeysAux seen l) k = if k ∈ seen then none else objGet l k := by
  induction l with
  | nil => intro seen k; simp [dedupKeysAux, objGet]
  | cons e rest ih =>
    intro seen k
    obtain ⟨k1, v1⟩ := e
    by_cases h1 : k1 ∈ seen
    · rw [show dedupKeysAux seen ((k1, v1) :: rest) = dedupKeysAux seen rest from
        by simp [dedupKeysAux, h1]]
      rw [ih seen k]
      by_cases hk : k ∈ seen
      · simp [hk]
      · have : ¬k1 = k := fun h => hk (h ▸ h1)
        simp [hk, objGet, this]
    · rw [show dedupKeysAux seen ((k1, v1) :: rest)
          = (k1, v1) :: dedupKeysAux (k1 :: seen) rest from
        by simp [dedupKeysAux, h1]]
      by_cases hk1 : k1 = k
      · subst hk1
        have : k1 ∉ seen := h1
        simp [objGet, this]
      · rw [show objGet ((k1, v1) :: dedupKeysAux (k1 :: seen) rest) k
            = objGet (dedupKeysAux (k1 :: seen) rest) k from by simp [objGet, hk1]]
        rw [ih (k1 :: seen) k]
        by_cases hk : k ∈ seen
        · simp [hk, List.mem_cons, hk1]
        · have : ¬k ∈ k1 :: seen := by
            simp [List.mem_cons, hk]
            exact fun h => hk1 h.symm
          simp [hk, this, objGet, hk1]

theorem objGet_dedupKeys (l : JObj) (k : String) :
    objGet (dedupKeys l) k = objGet l k := by
  unfold dedupKeys
  rw [objGet_dedupKeysAux l [] k]
  simp

theorem dedupKeysAux_nodup (l : JObj) : ∀ seen : List String,
    ((dedupKeysAux seen l).map Prod.fst).Nodup
    ∧ ∀ x ∈ (dedupKeysAux seen l).map Prod.fst, x ∉ seen := by
  induction l with
  | nil => intro seen; simp [dedupKeysAux]
  | cons e rest ih =>
    intro seen
    obtain ⟨k1, v1⟩ := e
    by_cases h1 : k1 ∈ seen
    · rw [show dedupKeysAux seen ((k1, v1) :: rest) = dedupKeysAux seen rest from
        by simp [dedupKeysAux, h1]]
      exact ih seen
    · rw [show dedupKeysAux seen ((k1, v1) :: rest)
          = (k1, v1) :: dedupKeysAux (k1 :: seen) rest from
        by simp [dedupKeysAux, h1]]
      obtain ⟨hnd, hout⟩ := ih (k1 :: seen)
      constructor
      · rw [List.map_cons, List.nodup_cons]
        exact ⟨fun hmem => (hout k1 hmem) (List.mem_cons_self k1 seen), hnd⟩
      · intro x hx
        rw [List.map_cons, List.mem_cons] at hx
        rcases hx with hx | hx
        · exact hx ▸ h1
        · exact fun hs => (hout x hx) (List.mem_cons_of_mem k1 hs)

theorem dedupKeys_nodup (l : JObj) : ((dedupKeys l).map Prod.fst).Nodup :=
  (dedupKeysAux_nodup l []).1

theorem objGet_perm_of_nodup {l l' : JObj} (h : l.Perm l')
    (hnd : (l.map Prod.fst).Nodup) (k : String) : objGet l k = objGet l' k := by
  induction h with
  | nil => rfl
  | cons x h ih =>
    rw [List.map_cons, List.nodup_cons] at hnd
    obtain ⟨k1, v1⟩ := x
    by_cases hk : k1 = k
    · simp [objGet, hk]
    · simp [objGet, hk, ih hnd.2]
  | swap x y l =>
    obtain ⟨kx, vx⟩ := x
    obtain ⟨ky, vy⟩ := y
    rw [List.map_cons, List.map_cons, List.nodup_cons, List.nodup_cons] at hnd
    have hxy : ¬ky = kx := by
      intro h'
      exact hnd.1 (h' ▸ List.mem_cons_self _ _)
    by_cases h1 : ky = k
    · have hkx : ¬kx = k := fun hh => hxy (h1.trans hh.symm)
      simp [objGet, h1, hkx]
    · by_cases h2 : kx = k
      · simp [objGet, h1, h2]
      · simp [objGet, h1, h2]
  | trans h1 h2 ih1 ih2 =>
    rw [ih1 hnd, ih2 ((h1.map Prod.fst).nodup hnd)]

theorem jsOwnEntries_perm (fs : JObj) : (jsOwnEntries fs).Perm (dedupKeys fs) := by
  unfold jsOwnEntries
  refine List.Perm.trans (List.Perm.append_right _ (List.perm_insertionSort _ _)) ?_
  have h := List.filter_append_perm
    (fun e : String × JValue => (isArrayIndex e.1).isSome) (dedupKeys fs)
  have hfil : (dedupKeys fs).filter (fun e => (isArrayIndex e.1).isNone)
      = (dedupKeys fs).filter (fun e => !(isArrayIndex e.1).isSome) := by
    apply List.filter_congr
    intro e _
    cases isArrayIndex e.1 <;> rfl
  rw [hfil]
  exact h

theorem objGet_jsOwnEntries (fs : JObj) (k : String) :
    objGet (jsOwnEntries fs) k = objGet fs k := by
  have hperm := jsOwnEntries_perm fs
  have hnd : ((jsOwnEntries fs).map Prod.fst).Nodup :=
    ((hperm.map Prod.fst).symm).nodup (dedupKeys_nodup fs)
  rw [objGet_perm_of_nodup hperm hnd k, objGet_dedupKeys]

theorem objGet_filter_ne (l : JObj) (k' : String) : ∀ k, k ≠ k' →
    objGet (l.filter (fun e => !(decide (e.1 = k')))) k = objGet l k := by
  induction l with
  | nil => intro k _; rfl
  | cons e rest ih =>
    intro k hk
    obtain ⟨k1, v1⟩ := e
    by_cases h1 : k1 = k'
    · have hfil : List.filter (fun e => !(decide (e.1 = k'))) ((k1, v1) :: rest)
          = rest.filter (fun e => !(decide (e.1 = k'))) := by
        simp [List.filter_cons, h1]
      rw [hfil, ih k hk]
      have hne : ¬k1 = k := fun h => hk (h.symm.trans h1)
      simp [objGet, hne]
    · have hfil : List.filter (fun e => !(decide (e.1 = k'))) ((k1, v1) :: rest)
          = (k1, v1) :: rest.filter (fun e => !(decide (e.1 = k'))) := by
        simp [List.filter_cons, h1]
      rw [hfil]
      by_cases h2 : k1 = k
      · simp [objGet, h2]
      · simp [objGet, h2, ih k hk]

theorem objGet_filter_self (l : JObj) (k' : String) :
    objGet (l.filter (fun e => !(decide (e.1 = k')))) k' = none := by
  induction l with
  | nil => rfl
  | cons e rest ih =>
    obtain ⟨k1, v1⟩ := e
    by_cases h1 : k1 = k'
    · have hfil : List.filter (fun e => !(decide (e.1 = k'))) ((k1, v1) :: rest)
          = rest.filter (fun e => !(decide (e.1 = k'))) := by
        simp [List.filter_cons, h1]
      rw [hfil, ih]
    · have hfil : List.filter (fun e => !(decide (e.1 = k'))) ((k1, v1) :: rest)
          = (k1, v1) :: rest.filter (fun e => !(decide (e.1 = k'))) := by
        simp [List.filter_cons, h1]
      rw [hfil]
      simp [objGet, h1, ih]

theorem objGet_restObj_ne (d : JObj) (cut k : String) (h : k ≠ cut) :
    objGet (restObj d cut) k = objGet d k := by
  unfold restObj
  rw [objGet_filter_ne _ _ _ h, objGet_jsOwnEntries]

theorem objGet_restObj_self (d : JObj) (cut : String) :
    objGet (restObj d cut) cut = none :=
  objGet_filter_self _ _

theorem tableFoldStep_some (acc : JObj) (ts : TableSchema) (d : JObj)
    (hd : ts.description = some d) :
    tableFoldStep acc ts
      = objSet acc (toPropKey (.num ts.id)) (.obj (tableObjOf ts d)) := by
  unfold tableFoldStep
  rw [hd]
  rfl

theorem tableFoldStep_none (acc : JObj) (ts : TableSchema)
    (hd : ts.description = none) : tableFoldStep acc ts = acc := by
  unfold tableFoldStep
  rw [hd]

theorem buildTables_frame (ss : List TableSchema) : ∀ (acc : JObj) (k : String),
    k ∉ ss.map (fun ts => toPropKey (JValue.num ts.id)) →
    objGet (ss.foldl tableFoldStep acc) k = objGet acc k := by
  induction ss with
  | nil => intro acc k _; rfl
  | cons s rest ih =>
    intro acc k hk
    rw [List.map_cons, List.mem_cons] at hk
    push_neg at hk
    obtain ⟨hk1, hk2⟩ := hk
    rw [List.foldl_cons]
    cases hd : s.description with
    | none =>
      rw [tableFoldStep_none acc s hd]
      exact ih acc k hk2
    | some d =>
      rw [tableFoldStep_some acc s d hd, ih _ k hk2, objGet_objSet_ne _ _ hk1]

theorem buildTables_values (ss : List TableSchema) : ∀ acc : JObj,
    (ss.map (fun ts => toPropKey (JValue.num ts.id))).Nodup →
    ∀ ts ∈ ss, ∀ d, ts.description = some d →
      objGet (ss.foldl tableFoldStep acc) (toPropKey (.num ts.id))
        = some (.obj (tableObjOf ts d)) := by
  induction ss with
  | nil => intro acc _ ts h; exact absurd h (List.not_mem_nil ts)
  | cons s rest ih =>
    intro acc hnd ts hts d hd
    rw [List.map_cons, List.nodup_cons] at hnd
    obtain ⟨hnotin, hnd'⟩ := hnd
    rw [List.foldl_cons]
    rcases List.mem_cons.mp hts with h | h
    · subst h
      rw [tableFoldStep_some acc ts d hd, buildTables_frame rest _ _ hnotin,
        objGet_objSet_same]
    · cases hd0 : s.description with
      | none =>
        rw [tableFoldStep_none acc s hd0]
        exact ih acc hnd' ts h d hd
      | some d0 =>
        rw [tableFoldStep_some acc s d0 hd0]
        exact ih _ hnd' ts h d hd

theorem buildTables_domain (ss : List TableSchema) :
    ∀ (acc : JObj) (k : String) (v : JValue),
    objGet (ss.foldl tableFoldStep acc) k = some v →
    (∃ ts, ts ∈ ss ∧ ts.description.isSome ∧ k = toPropKey (JValue.num ts.id))
    ∨ objGet acc k = some v := by
  induction ss with
  | nil => intro acc k v h; exact Or.inr h
  | cons s rest ih =>
    intro acc k v h
    rw [List.foldl_cons] at h
    cases hd : s.description with
    | none =>
      rw [tableFoldStep_none acc s hd] at h
      rcases ih acc k v h with ⟨ts, h1, h2, h3⟩ | h'
      · exact Or.inl ⟨ts, List.mem_cons_of_mem s h1, h2, h3⟩
      · exact Or.inr h'
    | some d =>
      rw [tableFoldStep_some acc s d hd] at h
      rcases ih _ k v h with ⟨ts, h1, h2, h3⟩ | h'
      · exact Or.inl ⟨ts, List.mem_cons_of_mem s h1, h2, h3⟩
      · by_cases hk : k = toPropKey (.num s.id)
        · exact Or.inl ⟨s, List.mem_cons_self s rest, by rw [hd]; rfl, hk⟩
        · rw [objGet_objSet_ne _ _ hk] at h'
          exact Or.inr h'

/-- C8: the table materializer is restricted to exactly the table-schema
entries whose description is non-null: every key of the produced mapping
comes from such an entry, and (for pairwise distinct table ids) each such
entry is stored as its table object, in which `dataPreviewQueryId` is
extracted out of the description payload, the remainder of the description
is kept as `persistData` (same content minus that one key), `expanded` is
taken verbatim from the source flag, and `initialized` is `true`
unconditionally.  With no active tab the output mapping is empty.  (The
embedding is a total function: no exception is raised for any active-tab
record.) -/
theorem claim8_table_materializer :
    buildServerTables none = []
    ∧ ∀ at' : ActiveTab,
      (∀ (k : String) (v : JValue),
        objGet (buildServerTables (some at')) k = some v →
        ∃ ts, ts ∈ at'.table_schemas ∧ ts.description.isSome
          ∧ k = toPropKey (.num ts.id))
      ∧ ((at'.table_schemas.map (fun ts => toPropKey (JValue.num ts.id))).Nodup →
        ∀ ts ∈ at'.table_schemas, ∀ d, ts.description = some d →
          objGet (buildServerTables (some at')) (toPropKey (.num ts.id))
            = some (.obj (tableObjOf ts d))
          ∧ objGet (tableObjOf ts d) "expanded" = some ts.expanded
          ∧ objGet (tableObjOf ts d) "initialized" = some (.bool true)
          ∧ objGet (tableObjOf ts d) "dataPreviewQueryId"
              = some ((objGet d "dataPreviewQueryId").getD .undef)
          ∧ objGet (tableObjOf ts d) "persistData"
              = some (.obj (restObj d "dataPreviewQueryId"))
          ∧ (∀ k, k ≠ "dataPreviewQueryId" →
              objGet (restObj d "dataPreviewQueryId") k = objGet d k)
          ∧ objGet (restObj d "dataPreviewQueryId") "dataPreviewQueryId"
              = none) := by
  refine ⟨rfl, fun at' => ⟨?_, ?_⟩⟩
  · intro k v h
    unfold buildServerTables at h
    rcases buildTables_domain _ [] k v h with ⟨ts, h1, h2, h3⟩ | h'
    · rw [List.mem_filter] at h1
      exact ⟨ts, h1.1, h2, h3⟩
    · exact absurd h' (by simp [objGet])
  · intro hnd ts hts d hd
    have hsub : ((at'.table_schemas.filter (fun ts => ts.description.isSome)).map
        (fun ts => toPropKey (JValue.num ts.id))).Nodup :=
      ((List.filter_sublist _).map _).nodup hnd
    have hmem : ts ∈ at'.table_schemas.filter (fun ts => ts.description.isSome) :=
      List.mem_filter.mpr ⟨hts, by rw [hd]; rfl⟩
    refine ⟨?_, rfl, rfl, rfl, rfl, ?_, ?_⟩
    · unfold buildServerTables
      exact buildTables_values _ [] hsub ts hmem d hd
    · intro k hk
      exact objGet_restObj_ne d "dataPreviewQueryId" k hk
    · exact objGet_restObj_self d "dataPreviewQueryId"

theorem claim8_witness :
    ((atW.table_schemas.map (fun ts => toPropKey (JValue.num ts.id))).Nodup)
    ∧ objGet (buildServerTables (some atW)) (toPropKey (.num tsA.id))
        = some (.obj (tableObjOf tsA
            [("dataPreviewQueryId", .str "q9"), ("x", .num 3)])) := by
  refine ⟨by decide, ?_⟩
  exact (((claim8_table_materializer.2 atW).2 (by decide) tsA
    (show tsA ∈ atW.table_schemas from List.mem_cons_self _ _)
    [("dataPreviewQueryId", .str "q9"), ("x", .num 3)] rfl)).1

/-! ## Claim C9: unsaved-editor overlay frame -/

theorem exceptBindErr {α β : Type} (e : JsErr) (f : α → Except JsErr β) :
    (Except.error e >>= f : Except JsErr β) = .error e := rfl

theorem runLegacyOverlay_unsaved (s : String) (v : JValue)
    (se t0 q0 : JObj) (th : List JValue) (ov : OverlayOut)
    (hv : jsonParse s = .ok v) (ht : truthy (optGet v "sqlLab") = true)
    (hne : jsStrictEq (pGet (pGet (optGet v "sqlLab") "queryEditors") "length")
      (.num 0) = false)
    (hok : runLegacyOverlay (some s) se t0 q0 th = .ok ov) :
    ov.unsavedQueryEditor
      = jsOr (pGet (optGet v "sqlLab") "unsavedQueryEditor") (.obj []) := by
  have hs : ¬s = "" := by
    intro h
    subst h
    rw [jsonParse_empty] at hv
    exact Except.noConfusion hv
  have hp : parseOrThrow s = .ok v := by
    simp [parseOrThrow, hv]
  unfold runLegacyOverlay at hok
  simp only [hs, if_false, hp, exceptBindOk] at hok
  simp only [ht, if_true] at hok
  cases hlen : jsGet (pGet (optGet v "sqlLab") "queryEditors") "length" with
  | error e =>
    rw [hlen, exceptBindErr] at hok
    exact Except.noConfusion hok
  | ok len =>
    rw [hlen, exceptBindOk] at hok
    have hlenv : len = pGet (pGet (optGet v "sqlLab") "queryEditors") "length" := by
      unfold jsGet at hlen
      by_cases hn : nullish (pGet (optGet v "sqlLab") "queryEditors") = true
      · rw [if_pos hn] at hlen
        exact Except.noConfusion hlen
      · rw [if_neg hn] at hlen
        exact (Except.ok.inj hlen).symm
    rw [hlenv] at hok
    rw [if_neg (by rw [hne]; exact Bool.false_ne_true)] at hok
    cases hqes : asArr (pGet (optGet v "sqlLab") "queryEditors") with
    | error e =>
      rw [hqes, exceptBindErr] at hok
      exact Except.noConfusion hok
    | ok qes =>
      rw [hqes, exceptBindOk] at hok
      cases hoe : overlayEditors
          (jsOr (pGet (optGet v "sqlLab") "unsavedQueryEditor") (.obj [])) se qes with
      | error e =>
        rw [hoe, exceptBindErr] at hok
        exact Except.noConfusion hok
      | ok qeMap =>
        rw [hoe, exceptBindOk] at hok
        cases htb : asArr (pGet (optGet v "sqlLab") "tables") with
        | error e =>
          rw [htb, exceptBindErr] at hok
          exact Except.noConfusion hok
        | ok tbls =>
          rw [htb, exceptBindOk] at hok
          cases hot : overlayTables t0 tbls with
          | error e =>
            rw [hot, exceptBindErr] at hok
            exact Except.noConfusion hok
          | ok tp =>
            rw [hot, exceptBindOk] at hok
            cases hoq : overlayQueries q0 (pGet (optGet v "sqlLab") "queries") with
            | error e =>
              rw [hoq, exceptBindErr] at hok
              exact Except.noConfusion hok
            | ok qMap =>
              rw [hoq, exceptBindOk] at hok
              cases hit : asIterable (pGet (optGet v "sqlLab") "tabHistory") with
              | error e =>
                rw [hit, exceptBindErr] at hok
                exact Except.noConfusion hok
              | ok legacyHistory =>
                rw [hit, exceptBindOk] at hok
                have := Except.ok.inj hok
                rw [← this]

/-- C9 (amended): the UnsavedQueryEditor patch is merged only into the
editor whose id strictly equals the patch's id — an editor whose id does
not match receives exactly the no-patch merge (legacy merge, `title`→`name`
mapping and the two stamps), unaffected by the patch.  At the public
interface the returned `unsavedQueryEditor` is the empty object when the
legacy slot is absent, and on the overlay path it is the legacy
`sqlLab.unsavedQueryEditor` when that value is truthy and the empty object
otherwise (so an absent or falsy legacy value yields `{}`, not the verbatim
value; and an unparsable slot raises instead of returning — see
`claim9_counterexample`). -/
theorem claim9_unsaved_patch_frame :
    (∀ existing qe unsaved : JValue,
        jsStrictEq (pGet unsaved "id") (pGet qe "id") = false →
        mergeLegacyEditor existing qe unsaved = mergeEditorNoPatch existing qe)
    ∧ (∀ (input : BootstrapInput) (n1 n2 : Int),
        ∃ r, getInitialState input none n1 n2 = .ok r
          ∧ r.sqlLab.unsavedQueryEditor = .obj [])
    ∧ (∀ (input : BootstrapInput) (s : String) (v : JValue) (n1 n2 : Int)
        (r : InitialStateResult),
        jsonParse s = .ok v → truthy (optGet v "sqlLab") = true →
        jsStrictEq (pGet (pGet (optGet v "sqlLab") "queryEditors") "length")
          (.num 0) = false →
        getInitialState input (some s) n1 n2 = .ok r →
        r.sqlLab.unsavedQueryEditor
          = jsOr (pGet (optGet v "sqlLab") "unsavedQueryEditor") (.obj [])) := by
  refine ⟨?_, ?_, ?_⟩
  · intro existing qe unsaved h
    unfold mergeLegacyEditor mergeEditorNoPatch
    simp [h]
  · intro input n1 n2
    exact ⟨_, rfl, rfl⟩
  · intro input s v n1 n2 r hv ht hne hok
    rw [getInitialState_eq] at hok
    cases hr : runLegacyOverlay (some s)
        (buildServerEditors input.common input.active_tab input.tab_state_ids)
        (buildServerTables input.active_tab) (spreadInto [] input.queries_)
        (seedTabHistory input.active_tab) with
    | error e =>
      rw [hr] at hok
      exact Except.noConfusion hok
    | ok ov =>
      rw [hr] at hok
      have hre : r = assembleState input ov n1 n2 := (Except.ok.inj hok).symm
      rw [hre]
      exact runLegacyOverlay_unsaved s v _ _ _ _ ov hv ht hne hr

/-- C9 (as stated) is false at its edges: an unparsable slot does not
yield the empty object — the parse exception surfaces (`.error`); and on
the overlay path a legacy state with *no* `unsavedQueryEditor` entry does
not pass `sqlLab.unsavedQueryEditor` through verbatim (which would be
`undefined`): the returned value is the empty object `{}`. -/
theorem claim9_counterexample :
    getInitialState inputTab5 (some "x") 0 0 = .error .syntaxError
    ∧ jsonParse slotC9
        = .ok (.obj [("sqlLab", .obj
            [("queryEditors", .arr [.obj [("id", .str "1")]]),
             ("tables", .arr []), ("queries", .obj []),
             ("tabHistory", .arr [])])])
    ∧ pGet (optGet (.obj [("sqlLab", .obj
          [("queryEditors", .arr [.obj [("id", .str "1")]]),
           ("tables", .arr []), ("queries", .obj []),
           ("tabHistory", .arr [])])]) "sqlLab") "unsavedQueryEditor" = .undef
    ∧ (getInitialState inputTab5 (some slotC9) 0 0).toOption.map
        (fun r => r.sqlLab.unsavedQueryEditor) = some (.obj [])
    ∧ JValue.obj [] ≠ JValue.undef :=
  ⟨rfl, rfl, rfl, rfl, by simp⟩

theorem claim9_witness :
    jsStrictEq (pGet (JValue.obj []) "id") (pGet (.obj [("id", .str "b")]) "id")
      = false
    ∧ mergeLegacyEditor .undef (.obj [("id", .str "b")]) (.obj [])
        = mergeEditorNoPatch .undef (.obj [("id", .str "b")]) :=
  ⟨rfl, claim9_unsaved_patch_frame.1 .undef (.obj [("id", .str "b")]) (.obj []) rfl⟩

/-! ## Claim C6: assembly -/

theorem runLegacyOverlay_shape (slot : Option String) (se t0 q0 : JObj)
    (th : List JValue) (ov : OverlayOut)
    (hok : runLegacyOverlay slot se t0 q0 th = .ok ov) :
    (∃ lth, ov.tabHistory = th ++ lth)
    ∧ (slot = none → ov = noOverlay se t0 q0 th) := by
  cases slot with
  | none =>
    have hv : ov = noOverlay se t0 q0 th := (Except.ok.inj hok).symm
    exact ⟨⟨[], by rw [hv]; simp [noOverlay]⟩, fun _ => hv⟩
  | some s =>
    refine ⟨?_, fun h => Option.noConfusion h⟩
    simp only [runLegacyOverlay] at hok
    by_cases hs : s = ""
    · rw [if_pos hs] at hok
      exact ⟨[], by rw [← Except.ok.inj hok]; simp [noOverlay]⟩
    · rw [if_neg hs] at hok
      cases hp : parseOrThrow s with
      | error e =>
        rw [hp, exceptBindErr] at hok
        exact Except.noConfusion hok
      | ok v =>
        rw [hp, exceptBindOk] at hok
        by_cases ht : truthy (optGet v "sqlLab") = true
        · rw [if_pos ht] at hok
          cases hlen : jsGet (pGet (optGet v "sqlLab") "queryEditors") "length" with
          | error e =>
            rw [hlen, exceptBindErr] at hok
            exact Except.noConfusion hok
          | ok len =>
            rw [hlen, exceptBindOk] at hok
            by_cases hz : jsStrictEq len (.num 0) = true
            · rw [if_pos hz] at hok
              exact ⟨[], by rw [← Except.ok.inj hok]; simp [noOverlay]⟩
            · rw [if_neg hz] at hok
              cases hqes : asArr (pGet (optGet v "sqlLab") "queryEditors") with
              | error e =>
                rw [hqes, exceptBindErr] at hok
                exact Except.noConfusion hok
              | ok qes =>
                rw [hqes, exceptBindOk] at hok
                cases hoe : overlayEditors
                    (jsOr (pGet (optGet v "sqlLab") "unsavedQueryEditor")
                      (.obj [])) se qes with
                | error e =>
                  rw [hoe, exceptBindErr] at hok
                  exact Except.noConfusion hok
                | ok qeMap =>
                  rw [hoe, exceptBindOk] at hok
                  cases htb : asArr (pGet (optGet v "sqlLab") "tables") with
                  | error e =>
                    rw [htb, exceptBindErr] at hok
                    exact Except.noConfusion hok
                  | ok tbls =>
                    rw [htb, exceptBindOk] at hok
                    cases hot : overlayTables t0 tbls with
                    | error e =>
                      rw [hot, exceptBindErr] at hok
                      exact Except.noConfusion hok
                    | ok tp =>
                      rw [hot, exceptBindOk] at hok
                      cases hoq : overlayQueries q0
                          (pGet (optGet v "sqlLab") "queries") with
                      | error e =>
                        rw [hoq, exceptBindErr] at hok
                        exact Except.noConfusion hok
                      | ok qMap =>
                        rw [hoq, exceptBindOk] at hok
                        cases hit : asIterable
                            (pGet (optGet v "sqlLab") "tabHistory") with
                        | error e =>
                          rw [hit, exceptBindErr] at hok
                          exact Except.noConfusion hok
                        | ok legacyHistory =>
                          rw [hit, exceptBindOk] at hok
                          exact ⟨legacyHistory, by rw [← Except.ok.inj hok]⟩
        · rw [if_neg ht] at hok
          exact ⟨[], by rw [← Except.ok.inj hok]; simp [noOverlay]⟩

theorem filterMap_isArrayIndex_of_isSome (l : JObj)
    (h : ∀ e ∈ l, (isArrayIndex e.1).isSome = true) :
    l.filterMap (fun e => isArrayIndex e.1)
      = l.map (fun e => (isArrayIndex e.1).getD 0) := by
  induction l with
  | nil => rfl
  | cons e rest ih =>
    obtain ⟨n, hn⟩ := Option.isSome_iff_exists.mp (h e (List.mem_cons_self e rest))
    rw [List.filterMap_cons, List.map_cons, hn]
    rw [ih (fun x hx => h x (List.mem_cons_of_mem e hx))]
    simp [hn]

theorem jsOwnEntries_index_sorted (m : JObj) :
    List.Sorted (fun a b => a ≤ b)
      ((jsOwnEntries m).filterMap (fun e => isArrayIndex e.1)) := by
  unfold jsOwnEntries
  rw [List.filterMap_append]
  have h2 : ((dedupKeys m).filter
      (fun e => (isArrayIndex e.1).isNone)).filterMap
        (fun e => isArrayIndex e.1) = [] := by
    rw [List.filterMap_eq_nil_iff]
    intro e he
    rw [List.mem_filter] at he
    exact Option.isNone_iff_eq_none.mp he.2
  rw [h2, List.append_nil]
  have hsorted : List.Sorted
      (fun a b : String × JValue =>
        (isArrayIndex a.1).getD 0 ≤ (isArrayIndex b.1).getD 0)
      (List.insertionSort
        (fun a b => (isArrayIndex a.1).getD 0 ≤ (isArrayIndex b.1).getD 0)
        ((dedupKeys m).filter (fun e => (isArrayIndex e.1).isSome))) :=
    @List.sorted_insertionSort (String × JValue)
      (fun a b => (isArrayIndex a.1).getD 0 ≤ (isArrayIndex b.1).getD 0)
      (fun a b => Nat.decLe _ _)
      ⟨fun a b => Nat.le_total _ _⟩
      ⟨fun a b c hab hbc => Nat.le_trans hab hbc⟩ _
  have hmem : ∀ e ∈ List.insertionSort
      (fun a b : String × JValue =>
        (isArrayIndex a.1).getD 0 ≤ (isArrayIndex b.1).getD 0)
      ((dedupKeys m).filter (fun e => (isArrayIndex e.1).isSome)),
      (isArrayIndex e.1).isSome = true := by
    intro e he
    have := (List.perm_insertionSort
      (fun a b : String × JValue =>
        (isArrayIndex a.1).getD 0 ≤ (isArrayIndex b.1).getD 0)
      ((dedupKeys m).filter (fun e => (isArrayIndex e.1).isSome))).mem_iff.mp he
    exact (List.mem_filter.mp this).2
  rw [filterMap_isArrayIndex_of_isSome _ hmem]
  exact List.Pairwise.map _ (fun a b h => h) hsorted

theorem jsOwnEntries_rest_insertion_order (m : JObj) :
    (jsOwnEntries m).filter (fun e => (isArrayIndex e.1).isNone)
      = (dedupKeys m).filter (fun e => (isArrayIndex e.1).isNone) := by
  unfold jsOwnEntries
  rw [List.filter_append]
  have h1 : (List.insertionSort
      (fun a b : String × JValue =>
        (isArrayIndex a.1).getD 0 ≤ (isArrayIndex b.1).getD 0)
      ((dedupKeys m).filter (fun e => (isArrayIndex e.1).isSome))).filter
        (fun e => (isArrayIndex e.1).isNone) = [] := by
    rw [List.filter_eq_nil_iff]
    intro e he
    have := (List.perm_insertionSort
      (fun a b : String × JValue =>
        (isArrayIndex a.1).getD 0 ≤ (isArrayIndex b.1).getD 0)
      ((dedupKeys m).filter (fun e => (isArrayIndex e.1).isSome))).mem_iff.mp he
    have hs := (List.mem_filter.mp this).2
    simp only [Option.isNone_iff_eq_none]
    intro hnone
    rw [hnone] at hs
    exact Bool.noConfusion hs
  have h2 : ((dedupKeys m).filter (fun e => (isArrayIndex e.1).isNone)).filter
      (fun e => (isArrayIndex e.1).isNone)
        = (dedupKeys m).filter (fun e => (isArrayIndex e.1).isNone) := by
    rw [List.filter_eq_self]
    intro e he
    exact (List.mem_filter.mp he).2
  rw [h1, h2, List.nil_append]

/-- C6's ordering clause is false: for server tab records with ids 5 then 2
(insertion order `["5", "2"]`) and no legacy slot, the returned
`queryEditors` sequence lists the editor with id `"2"` before the editor
with id `"5"` — `Object.values` enumerates array-index-like keys in
ascending numeric order, not insertion order. -/
theorem claim6_counterexample :
    inputTabs52.tab_state_ids.map (fun ts => toString ts.id) = ["5", "2"]
    ∧ (getInitialState inputTabs52 none 0 0).toOption.map
        (fun r => r.sqlLab.queryEditors.map (fun v => jvString (pGet v "id")))
      = some [some "2", some "5"]
    ∧ ([some "2", some "5"] : List (Option String)) ≠ [some "5", some "2"] :=
  ⟨rfl, rfl, by decide⟩

/-- C6 (amended): the returned `queryEditors` and `tables` are the merged
mappings converted to sequences in JavaScript own-property enumeration
order — array-index keys in ascending numeric order first (the
`filterMap`-sorted conjunct), then the remaining keys in insertion order
(the `filter`-equality conjunct) — not plain insertion order; with no
legacy slot the mappings are exactly the server-built ones.  `tabHistory`
is the deduplicator applied to the server-seeded active-tab id followed by
the legacy tab-history sequence in order (empty when no legacy slot), and
on every load `activeSouthPaneTab` is the literal `"Results"`, `offline` is
`false`, `localStorageUsageInKilobytes` is `0`, `alerts` is empty, and
`queryCostEstimates` is the empty mapping. -/
theorem claim6_assembly (input : BootstrapInput) (slot : Option String)
    (n1 n2 : Int) (r : InitialStateResult)
    (hok : getInitialState input slot n1 n2 = .ok r) :
    r.sqlLab.activeSouthPaneTab = "Results"
    ∧ r.sqlLab.offline = false
    ∧ r.sqlLab.alerts = []
    ∧ r.localStorageUsageInKilobytes = 0
    ∧ r.sqlLab.queryCostEstimates = []
    ∧ (∀ m : JObj,
        jsValues m = (jsOwnEntries m).map (fun e => e.2)
        ∧ List.Sorted (fun a b => a ≤ b)
            ((jsOwnEntries m).filterMap (fun e => isArrayIndex e.1))
        ∧ (jsOwnEntries m).filter (fun e => (isArrayIndex e.1).isNone)
            = (dedupKeys m).filter (fun e => (isArrayIndex e.1).isNone))
    ∧ ∃ ov : OverlayOut,
        runLegacyOverlay slot
          (buildServerEditors input.common input.active_tab input.tab_state_ids)
          (buildServerTables input.active_tab) (spreadInto [] input.queries_)
          (seedTabHistory input.active_tab) = .ok ov
        ∧ r.sqlLab.queryEditors = jsValues ov.queryEditors
        ∧ r.sqlLab.tables = jsValues ov.tables
        ∧ r.sqlLab.tabHistory = dedupeTabHistory ov.tabHistory
        ∧ (∃ legacyTH,
            ov.tabHistory = seedTabHistory input.active_tab ++ legacyTH)
        ∧ (slot = none →
            ov.queryEditors
              = buildServerEditors input.common input.active_tab
                  input.tab_state_ids
            ∧ ov.tables = buildServerTables input.active_tab
            ∧ ov.tabHistory = seedTabHistory input.active_tab) := by
  rw [getInitialState_eq] at hok
  cases hr : runLegacyOverlay slot
      (buildServerEditors input.common input.active_tab input.tab_state_ids)
      (buildServerTables input.active_tab) (spreadInto [] input.queries_)
      (seedTabHistory input.active_tab) with
  | error e =>
    rw [hr] at hok
    exact Except.noConfusion hok
  | ok ov =>
    rw [hr] at hok
    have hre : r = assembleState input ov n1 n2 := (Except.ok.inj hok).symm
    obtain ⟨⟨lth, hlth⟩, hnone⟩ := runLegacyOverlay_shape slot _ _ _ _ ov hr
    subst hre
    refine ⟨rfl, rfl, rfl, rfl, rfl, ?_, ov, rfl, rfl, rfl, rfl, ⟨lth, hlth⟩, ?_⟩
    · intro m
      exact ⟨rfl, jsOwnEntries_index_sorted m, jsOwnEntries_rest_insertion_order m⟩
    · intro h
      have := hnone h
      rw [this]
      exact ⟨rfl, rfl, rfl⟩

theorem claim6_witness :
    ∃ r, getInitialState inputTabs52 none 0 0 = .ok r
      ∧ r.sqlLab.activeSouthPaneTab = "Results"
      ∧ r.sqlLab.offline = false
      ∧ r.sqlLab.alerts = []
      ∧ r.localStorageUsageInKilobytes = 0
      ∧ r.sqlLab.queryCostEstimates = [] := by
  refine ⟨_, rfl, ?_⟩
  have h := claim6_assembly inputTabs52 none 0 0 _ rfl
  exact ⟨h.1, h.2.1, h.2.2.1, h.2.2.2.1, h.2.2.2.2.1⟩
